import Mathlib

/-!
Verification development for the GDPR structural parser and relational
knowledge store (`gdpr_parser.py`).  The Python source is shallowly embedded:
pure text manipulation is modelled over `List Char`, the SQLite store is
modelled as lists of rows, and the regex / NLP libraries consumed by the
parser are modelled as explicitly passed match oracles where the claim under
verification does not depend on the concrete pattern semantics.

Whitespace is the ASCII whitespace set recognised by Python's `\s` /
`str.strip` for ASCII text: space, tab, newline, carriage return, vertical
tab and form feed.
-/

namespace GDPR


/-- The ASCII whitespace predicate used by Python's `\s` and `str.strip`. -/
def pyIsSpace (c : Char) : Bool :=
  c == ' ' || c == '\t' || c == '\n' || c == '\r' || c == '\x0b' || c == '\x0c'

/-- Lowercase a character list, character by character (`str.lower`). -/
def lowerChars (l : List Char) : List Char :=
  l.map Char.toLower

/-- Decide, as `isPrefList p l`, whether `p` is an initial segment of `l`. -/
def isPrefList : List Char → List Char → Bool
  | [], _ => true
  | _ :: _, [] => false
  | a :: as, b :: bs => a == b && isPrefList as bs

/-- Decide, as `containsSub pat l`, whether `pat` occurs as a contiguous
substring of `l` (Python's `in` operator on strings). -/
def containsSub (pat : List Char) : List Char → Bool
  | [] => isPrefList pat []
  | c :: cs => isPrefList pat (c :: cs) || containsSub pat cs

/-- Index of the leftmost occurrence of `pat` in `l` (Python's `str.find`),
`none` when there is no occurrence. -/
def findSub (pat : List Char) : List Char → Option Nat
  | [] => if isPrefList pat [] then some 0 else none
  | c :: cs =>
    if isPrefList pat (c :: cs) then some 0
    else (findSub pat cs).map (· + 1)

/-- Python's `str.strip()`: remove leading and trailing whitespace. -/
def pyStrip (l : List Char) : List Char :=
  ((l.dropWhile pyIsSpace).reverse.dropWhile pyIsSpace).reverse

/-- Python's `str.strip` lifted to `String`. -/
def pyStripStr (s : String) : String :=
  String.mk (pyStrip s.data)

/-!  ## TextNormalizer (`preprocess_text`)

`re.sub(r'\s+', ' ', text)` is `collapseWs false`; the carried flag records
whether the previously emitted character was the space of a whitespace run
still being consumed. -/

/-- One-pass collapse of every maximal whitespace run to a single space,
the embedding of `re.sub(r'\s+', ' ', text)`. -/
def collapseWs : Bool → List Char → List Char
  | _, [] => []
  | prevWs, c :: cs =>
    if pyIsSpace c then
      if prevWs then collapseWs true cs
      else ' ' :: collapseWs true cs
    else c :: collapseWs false cs

/-- Python's `str.replace(p, r)`: non-overlapping left-to-right replacement.
The fuel argument (instantiated with the length of the text) only serves
termination; each step consumes at least one character. -/
def replaceAux (p r : List Char) : Nat → List Char → List Char
  | 0, l => l
  | _ + 1, [] => []
  | fuel + 1, c :: cs =>
    if isPrefList p (c :: cs) then r ++ replaceAux p r fuel ((c :: cs).drop p.length)
    else c :: replaceAux p r fuel cs

/-- Python's `str.replace` at full fuel. -/
def pyReplace (p r l : List Char) : List Char :=
  replaceAux p r l.length l

/-- The literal characters of `"Article"`. -/
def articleChars : List Char :=
  ['A', 'r', 't', 'i', 'c', 'l', 'e']

/-- ASCII decimal digit test (`\d` for the document's ASCII text). -/
def isDigitC (c : Char) : Bool :=
  48 ≤ c.toNat && c.toNat ≤ 57

/-- The dash alternatives of the header pattern `[—–-]`. -/
def isDashC (c : Char) : Bool :=
  c == '-' || c == '—' || c == '–'

/-- Attempt to match `Article\s+(\d+)\s*[—–-]\s*` at the head of `l`.
On success, return the captured digit group and the remainder of the text
after the match.  All quantifiers act on pairwise disjoint character
classes, so greedy maximal munch is the exact regex semantics here. -/
def matchArticle (l : List Char) : Option (List Char × List Char) :=
  if isPrefList articleChars l then
    let r1 := l.drop 7
    if (r1.takeWhile pyIsSpace).isEmpty then none
    else
      let r2 := r1.dropWhile pyIsSpace
      let ds := r2.takeWhile isDigitC
      if ds.isEmpty then none
      else
        match (r2.dropWhile isDigitC).dropWhile pyIsSpace with
        | [] => none
        | d :: r4 => if isDashC d then some (ds, r4.dropWhile pyIsSpace) else none
  else none

/-- The replacement text `Article \1 - ` for a captured digit group. -/
def articleRepl (ds : List Char) : List Char :=
  articleChars ++ (' ' :: ds) ++ [' ', '-', ' ']

/-- The substitution `re.sub(r'Article\s+(\d+)\s*[—–-]\s*', r'Article \1 - ', text)`:
leftmost non-overlapping substitution, scanning position by position. -/
def normArtAux : Nat → List Char → List Char
  | 0, l => l
  | _ + 1, [] => []
  | fuel + 1, c :: cs =>
    match matchArticle (c :: cs) with
    | some (ds, rest) => articleRepl ds ++ normArtAux fuel rest
    | none => c :: normArtAux fuel cs

/-- Article-header normalization at full fuel. -/
def normalizeArticleHeaders (l : List Char) : List Char :=
  normArtAux l.length l

/-- The text normalizer `GDPRParser.preprocess_text`: whitespace collapse,
the four OCR character fixes, then article-header normalization. -/
def preprocess_text (s : String) : String :=
  let t1 := collapseWs false s.data
  let t2 := pyReplace ['|'] ['I'] t1
  let t3 := pyReplace ['l', '1'] ['h'] t2
  let t4 := pyReplace ['—'] ['-'] t3
  let t5 := pyReplace ['–'] ['-'] t4
  String.mk (normalizeArticleHeaders t5)

/-- Every whitespace character of `l` is the plain space. -/
def WsOnlySpace (l : List Char) : Prop :=
  ∀ c ∈ l, pyIsSpace c = true → c = ' '

/-- No two adjacent characters of `l` are both whitespace. -/
def NoAdjWs (l : List Char) : Prop :=
  List.Chain' (fun a b => ¬(pyIsSpace a = true ∧ pyIsSpace b = true)) l

/-- The normalizer's output invariant. -/
def GoodWs (l : List Char) : Prop :=
  WsOnlySpace l ∧ NoAdjWs l

/-- The head of `res` is whitespace only if the head of `l` is. -/
def HeadWsLe (res l : List Char) : Prop :=
  ∀ h ∈ res.head?, pyIsSpace h = true → ∃ h₀ ∈ l.head?, pyIsSpace h₀ = true

/-!  ## StructuralSegmenter and ArticleExtractor
(`extract_articles_with_structure`)

Regex matching itself is external library behaviour; the claims under
verification concern what the extractor does with the matches, so the
chapter/section/article header matches are passed in as position-annotated
markers (number, title, start offset), exactly the data `re.finditer`
delivers to the Python code. -/

/-- A header match: captured number, captured title, match start offset. -/
structure Marker where
  number : String
  title : String
  start : Nat
deriving DecidableEq, Repr

/-- A chapter or section interval with its assigned end position. -/
structure Interval where
  number : String
  title : String
  start : Nat
  stop : Nat
deriving DecidableEq, Repr

/-- Assign end positions: each marker's interval ends at the next marker's
start, and the last marker's interval ends at the document length. -/
def assignEnds : List Marker → Nat → List Interval
  | [], _ => []
  | [m], len => [⟨m.number, m.title, m.start, len⟩]
  | m :: m' :: rest, len =>
    ⟨m.number, m.title, m.start, m'.start⟩ :: assignEnds (m' :: rest) len

/-- The containment loop of the extractor: scan the interval list in order
and return the first interval containing `pos`, stopping at the first hit
(the `break` in the source). -/
def scanContaining (pos : Nat) : List Interval → Option (String × String)
  | [] => none
  | iv :: ivs =>
    if iv.start ≤ pos ∧ pos < iv.stop then some (iv.number, iv.title)
    else scanContaining pos ivs

/-- Specification-side lookup: the first interval (in list order) whose
half-open interval contains `pos`, via `List.find?`. -/
def firstContaining (ivs : List Interval) (pos : Nat) : Option (String × String) :=
  (ivs.find? fun iv => decide (iv.start ≤ pos ∧ pos < iv.stop)).map
    fun iv => (iv.number, iv.title)

/-- An extracted article before paragraph decomposition. -/
structure PArticle where
  number : String
  title : String
  content : String
  chapterTag : Option (String × String)
  sectionTag : Option (String × String)
deriving DecidableEq, Repr

/-- The slice `text[a:b].strip()`. -/
def sliceText (s : String) (a b : Nat) : String :=
  String.mk (pyStrip ((s.data.drop a).take (b - a)))

/-- Build one article from its header and the next header's start. -/
def mkArticleAt (text : String) (chs secs : List Interval) (h : Marker)
    (stop : Nat) : PArticle :=
  { number := h.number
    title := h.title
    content := sliceText text h.start stop
    chapterTag := scanContaining h.start chs
    sectionTag := scanContaining h.start secs }

/-- The article extraction loop: each article's span runs from its header
start to the next header's start (document end for the last), and the
chapter/section tags are looked up at the header's start offset. -/
def extract_articles_with_structure (text : String) (chs secs : List Interval) :
    List Marker → List PArticle
  | [] => []
  | [h] => [mkArticleAt text chs secs h text.data.length]
  | h :: h' :: rest =>
    mkArticleAt text chs secs h h'.start ::
      extract_articles_with_structure text chs secs (h' :: rest)

/-!  ## ParagraphDecomposer (`extract_paragraphs_and_subparagraphs`)

The three regex patterns (numbered paragraph, lettered subparagraph,
roman-numeral sub-subparagraph), the header-stripping substitution and the
head-text split are library regex behaviour; they are passed in as a match
oracle returning the captured (marker, stripped text) pairs in document
order, which is exactly what the Python loops consume. -/

/-- A roman-numeral sub-subparagraph. -/
structure Subsubparagraph where
  number : String
  text : String
deriving DecidableEq, Repr

/-- A lettered subparagraph. -/
structure Subparagraph where
  letter : String
  text : String
  subsubparagraphs : List Subsubparagraph
deriving DecidableEq, Repr

/-- A numbered paragraph. -/
structure Paragraph where
  number : String
  text : String
  subparagraphs : List Subparagraph
deriving DecidableEq, Repr

/-- The regex services consumed by the decomposer. -/
structure ParaOracle where
  stripHeader : String → String
  paraMatches : String → List (String × String)
  subMatches : String → List (String × String)
  subsubMatches : String → List (String × String)
  headText : String → String

/-- Build one subparagraph, decomposing its text into sub-subparagraphs. -/
def buildSubparagraph (o : ParaOracle) (m : String × String) : Subparagraph :=
  ⟨m.1, m.2, (o.subsubMatches m.2).map fun q => ⟨q.1, q.2⟩⟩

/-- Build one paragraph: when subparagraphs are found, the paragraph's
stored text is recomputed as only the portion before the first lettered
marker. -/
def buildParagraph (o : ParaOracle) (m : String × String) : Paragraph :=
  let subs := (o.subMatches m.2).map (buildSubparagraph o)
  if subs.isEmpty then ⟨m.1, m.2, []⟩ else ⟨m.1, o.headText m.2, subs⟩

/-- The paragraph decomposer: strip the article header, match numbered
paragraphs, and fall back to a single synthetic paragraph "1" holding the
whole content when the pattern found nothing. -/
def extract_paragraphs_and_subparagraphs (o : ParaOracle) (content : String) :
    List Paragraph :=
  let c := o.stripHeader content
  let ps := (o.paraMatches c).map (buildParagraph o)
  if ps.isEmpty then [⟨"1", c, []⟩] else ps

/-- A decomposer oracle whose numbered-paragraph pattern never matches. -/
def noMatchOracle : ParaOracle :=
  { stripHeader := id
    paraMatches := fun _ => []
    subMatches := fun _ => []
    subsubMatches := fun _ => []
    headText := id }

/-!  ## RequirementClassifier (`extract_requirements`)

Sentence segmentation is an external NLP capability; it enters as the
`seg` function.  The three keyword sets and the case-insensitive substring
tests are taken literally from the source. -/

/-- The obligation keyword set. -/
def obligation_keywords : List String :=
  ["shall", "must", "required", "ensure", "necessary", "obligation", "right",
   "responsibility", "liable", "accountable", "duty", "comply"]

/-- The right keyword set. -/
def right_keywords : List String :=
  ["right to", "entitled to", "freedom of", "liberty to"]

/-- The time-bound keyword set. -/
def time_keywords : List String :=
  ["within", "days", "months", "years", "period", "delay", "without undue delay",
   "immediately", "promptly", "no later than"]

/-- The test `keyword in sent_text.lower()`: case-insensitive substring containment
(the keyword constants are already lowercase). -/
def keywordIn (kw s : String) : Bool :=
  containsSub kw.data (lowerChars s.data)

/-- The obligation flag of a sentence. -/
def isObligationSent (s : String) : Bool :=
  obligation_keywords.any fun k => keywordIn k s

/-- The right flag of a sentence. -/
def isRightSent (s : String) : Bool :=
  right_keywords.any fun k => keywordIn k s

/-- The time-bound flag of a sentence. -/
def isTimeSent (s : String) : Bool :=
  time_keywords.any fun k => keywordIn k s

/-- A stored Requirement record. -/
structure Requirement where
  paragraph : String
  subparagraph : Option String
  text : String
  is_obligation : Bool
  is_right : Bool
  is_time_requirement : Bool
deriving DecidableEq, Repr

/-- A stored TimeRequirement record. -/
structure TimeRequirement where
  article : String
  paragraph : String
  subparagraph : Option String
  text : String
deriving DecidableEq, Repr

/-- An article as seen by the requirement classifier. -/
structure RArticle where
  number : String
  content : String
  paragraphs : List Paragraph
deriving DecidableEq, Repr

/-- Classify one sentence: a Requirement is produced only when the
obligation or the right flag is true. -/
def sentReq (p : Paragraph) (sp : Option String) (s : String) : Option Requirement :=
  let t := pyStripStr s
  if isObligationSent t || isRightSent t then
    some ⟨p.number, sp, t, isObligationSent t, isRightSent t, isTimeSent t⟩
  else none

/-- The TimeRequirement side effect: created only inside the branch that
stored a Requirement, and only when the time flag is also true. -/
def sentTimeReq (artNum : String) (p : Paragraph) (sp : Option String)
    (s : String) : Option TimeRequirement :=
  let t := pyStripStr s
  if (isObligationSent t || isRightSent t) && isTimeSent t then
    some ⟨artNum, p.number, sp, t⟩
  else none

/-- The classifier `GDPRParser.extract_requirements`: for every paragraph, classify the
externally segmented sentences of its text and of each subparagraph's text;
return the stored Requirements and the TimeRequirement records. -/
def extract_requirements (seg : String → List String) (art : RArticle) :
    List Requirement × List TimeRequirement :=
  (art.paragraphs.flatMap fun p =>
      (seg p.text).filterMap (sentReq p none) ++
        p.subparagraphs.flatMap fun sp => (seg sp.text).filterMap (sentReq p (some sp.letter)),
   art.paragraphs.flatMap fun p =>
      (seg p.text).filterMap (sentTimeReq art.number p none) ++
        p.subparagraphs.flatMap fun sp =>
          (seg sp.text).filterMap (sentTimeReq art.number p (some sp.letter)))

/-- One-sentence segmenter used to evaluate the classifier concretely. -/
def oneSentSeg : String → List String := fun t => [t]

/-!  ## CrossReferenceExtractor (`extract_cross_references`)

The matches of `Article\s+(\d+)(?:\s*\(\s*(\d+)\s*\))?` over an article's
content are supplied as an oracle returning, in document order, the
captured (target article, optional target paragraph) pairs.  The extractor
builds a dict keyed by source article number, appending a reference unless
it is a self-reference or an already-emitted (article, paragraph) pair. -/

/-- A cross-reference: target article and optional target paragraph.  This
record is exactly the deduplication key used by the source. -/
structure CrossRef where
  article : String
  paragraph : Option String
deriving DecidableEq, Repr

/-- An article as seen by the cross-reference extractor. -/
structure CArticle where
  number : String
  content : String
deriving DecidableEq, Repr

/-- The inner loop over one article's matches: skip self-references, skip
already-emitted pairs, otherwise append. -/
def addRefs (src : String) (acc : List CrossRef) : List CrossRef → List CrossRef
  | [] => acc
  | m :: ms =>
    if m.article = src then addRefs src acc ms
    else if m ∈ acc then addRefs src acc ms
    else addRefs src (acc ++ [m]) ms

/-- The accumulated defaultdict, folded over the article list. -/
def crossRefFold (o : String → List CrossRef)
    (m : String → List CrossRef) : List CArticle → (String → List CrossRef)
  | [] => m
  | a :: rest =>
    crossRefFold o
      (fun k => if k = a.number then addRefs a.number (m a.number) (o a.content) else m k)
      rest

/-- The extractor `GDPRParser.extract_cross_references` as a map from source article
number to its emitted reference list. -/
def extract_cross_references (o : String → List CrossRef)
    (articles : List CArticle) : String → List CrossRef :=
  crossRefFold o (fun _ => []) articles

/-- The match stream of the C7 witness article. -/
def witnessRefOracle : String → List CrossRef :=
  fun _ => [⟨"6", some "1"⟩, ⟨"5", none⟩, ⟨"6", some "1"⟩]

/-!  ## KnowledgeStore: relational rows and reconstruction

The SQLite store is modelled as lists of rows in insertion order.
`ORDER BY` on a `TEXT` column under the default BINARY collation is
byte-wise comparison; for the parser's ASCII data this is the
code-point-wise lexicographic order `lexLe`, and the query is modelled as a
stable sort by that key. -/

/-- Byte-wise (code-point-wise) lexicographic order on character lists,
the BINARY collation used by `ORDER BY` on `TEXT` columns. -/
def lexLe : List Char → List Char → Bool
  | [], _ => true
  | _ :: _, [] => false
  | a :: as, b :: bs =>
    if a.toNat < b.toNat then true
    else if b.toNat < a.toNat then false
    else lexLe as bs

/-- Lexicographic string comparison ("10" sorts before "2"). -/
def strLe (a b : String) : Bool :=
  lexLe a.data b.data

/-- Stable sort by a string key: the model of `ORDER BY key`. -/
def sortByKey {α : Type} (key : α → String) (l : List α) : List α :=
  List.insertionSort (fun x y => strLe (key x) (key y) = true) l

/-- A `chapters` row. -/
structure ChapterRow where
  id : Nat
  number : String
  title : String
deriving DecidableEq, Repr

/-- A `sections` row. -/
structure SectionRow where
  id : Nat
  chapterId : Option Nat
  number : String
  title : String
deriving DecidableEq, Repr

/-- An `articles` row. -/
structure ArticleRow where
  id : Nat
  number : String
  title : String
  content : String
  chapterId : Option Nat
  sectionId : Option Nat
deriving DecidableEq, Repr

/-- A `paragraphs` row. -/
structure ParagraphRow where
  id : Nat
  articleId : Nat
  number : String
  text : String
deriving DecidableEq, Repr

/-- A `subparagraphs` row. -/
structure SubparagraphRow where
  id : Nat
  paragraphId : Nat
  letter : String
  text : String
deriving DecidableEq, Repr

/-- A `subsubparagraphs` row. -/
structure SubsubparagraphRow where
  id : Nat
  subparagraphId : Nat
  number : String
  text : String
deriving DecidableEq, Repr

/-- A `requirements` row. -/
structure RequirementRow where
  id : Nat
  articleId : Nat
  paragraphId : Option Nat
  subparagraphId : Option Nat
  text : String
  is_obligation : Bool
  is_right : Bool
  is_time_requirement : Bool
deriving DecidableEq, Repr

/-- An `entities` row. -/
structure EntityRow where
  id : Nat
  articleId : Nat
  text : String
  label : String
  startPos : Nat
  endPos : Nat
deriving DecidableEq, Repr

/-- A `cross_references` row. -/
structure CrossRefRow where
  id : Nat
  fromArticleId : Nat
  toArticleId : Nat
  toParagraph : Option String
deriving DecidableEq, Repr

/-- The populated relational store, rows in insertion order. -/
structure Database where
  chapters : List ChapterRow
  sections : List SectionRow
  articles : List ArticleRow
  paragraphs : List ParagraphRow
  subparagraphs : List SubparagraphRow
  subsubparagraphs : List SubsubparagraphRow
  requirements : List RequirementRow
  entities : List EntityRow
  cross_references : List CrossRefRow
deriving DecidableEq, Repr

/-- Reconstructed sub-subparagraph node. -/
structure SubsubT where
  id : Nat
  number : String
  text : String
deriving DecidableEq, Repr

/-- Reconstructed subparagraph node. -/
structure SubT where
  id : Nat
  letter : String
  text : String
  subsubparagraphs : List SubsubT
deriving DecidableEq, Repr

/-- Reconstructed paragraph node. -/
structure ParaT where
  id : Nat
  number : String
  text : String
  subparagraphs : List SubT
deriving DecidableEq, Repr

/-- Reconstructed requirement entry. -/
structure ReqT where
  id : Nat
  text : String
  is_obligation : Bool
  is_right : Bool
  is_time_requirement : Bool
deriving DecidableEq, Repr

/-- Reconstructed entity entry. -/
structure EntT where
  id : Nat
  text : String
  label : String
  start : Nat
  stop : Nat
deriving DecidableEq, Repr

/-- Reconstructed outgoing cross-reference entry. -/
structure RefT where
  article : String
  paragraph : Option String
deriving DecidableEq, Repr

/-- Reconstructed article tree. -/
structure ArticleT where
  id : Nat
  number : String
  title : String
  content : String
  chapter : Option (String × String)
  sect : Option (String × String)
  paragraphs : List ParaT
  requirements : List ReqT
  entities : List EntT
  cross_references : List RefT
deriving DecidableEq, Repr

/-- The `LEFT JOIN chapters` tag with Python's truthiness test on the
joined number (`if chapter_num else None`). -/
def chapterTagOf (db : Database) (cid? : Option Nat) : Option (String × String) :=
  match cid?.bind fun cid => db.chapters.find? fun c => c.id = cid with
  | none => none
  | some c => if c.number = "" then none else some (c.number, c.title)

/-- The `LEFT JOIN sections` tag with the same truthiness test. -/
def sectionTagOf (db : Database) (sid? : Option Nat) : Option (String × String) :=
  match sid?.bind fun sid => db.sections.find? fun s => s.id = sid with
  | none => none
  | some s => if s.number = "" then none else some (s.number, s.title)

/-- The query `SELECT id, number, text FROM subsubparagraphs WHERE subparagraph_id = ?
ORDER BY number`. -/
def buildSubsubTs (db : Database) (spid : Nat) : List SubsubT :=
  (sortByKey (fun r => r.number)
    (db.subsubparagraphs.filter fun r => r.subparagraphId = spid)).map
    fun r => ⟨r.id, r.number, r.text⟩

/-- The query `SELECT id, letter, text FROM subparagraphs WHERE paragraph_id = ?
ORDER BY letter`. -/
def buildSubTs (db : Database) (pid : Nat) : List SubT :=
  (sortByKey (fun r => r.letter)
    (db.subparagraphs.filter fun r => r.paragraphId = pid)).map
    fun r => ⟨r.id, r.letter, r.text, buildSubsubTs db r.id⟩

/-- The query `SELECT id, number, text FROM paragraphs WHERE article_id = ?
ORDER BY number`. -/
def buildParaTs (db : Database) (aid : Nat) : List ParaT :=
  (sortByKey (fun r => r.number)
    (db.paragraphs.filter fun r => r.articleId = aid)).map
    fun r => ⟨r.id, r.number, r.text, buildSubTs db r.id⟩

/-- The query `SELECT … FROM requirements WHERE article_id = ?`. -/
def buildReqTs (db : Database) (aid : Nat) : List ReqT :=
  (db.requirements.filter fun r => r.articleId = aid).map
    fun r => ⟨r.id, r.text, r.is_obligation, r.is_right, r.is_time_requirement⟩

/-- The query `SELECT … FROM entities WHERE article_id = ?`. -/
def buildEntTs (db : Database) (aid : Nat) : List EntT :=
  (db.entities.filter fun r => r.articleId = aid).map
    fun r => ⟨r.id, r.text, r.label, r.startPos, r.endPos⟩

/-- The cross-reference join with `articles` on the target id. -/
def buildRefTs (db : Database) (aid : Nat) : List RefT :=
  (db.cross_references.filter fun r => r.fromArticleId = aid).filterMap
    fun cr => (db.articles.find? fun a => a.id = cr.toArticleId).map
      fun a => (⟨a.number, cr.toParagraph⟩ : RefT)

/-- The read `GDPRParser.get_article_by_number`: fetch the first article row with
the requested number and reconstruct its full nested tree. -/
def get_article_by_number (db : Database) (n : String) : Option ArticleT :=
  (db.articles.find? fun a => a.number = n).map fun a =>
    { id := a.id
      number := a.number
      title := a.title
      content := a.content
      chapter := chapterTagOf db a.chapterId
      sect := sectionTagOf db a.sectionId
      paragraphs := buildParaTs db a.id
      requirements := buildReqTs db a.id
      entities := buildEntTs db a.id
      cross_references := buildRefTs db a.id }

/-- A two-paragraph store demonstrating the lexicographic string order. -/
def lexDemoDb : Database :=
  { chapters := []
    sections := []
    articles := [⟨1, "7", "T", "c", none, none⟩]
    paragraphs := [⟨1, 1, "2", "two"⟩, ⟨2, 1, "10", "ten"⟩]
    subparagraphs := []
    subsubparagraphs := []
    requirements := []
    entities := []
    cross_references := [] }

/-!  ## KnowledgeStore: export (`export_to_json`)

The export path re-runs the same per-article queries as
`get_article_by_number` but serializes without surrogate ids; the article
list itself is ordered by `ORDER BY a.number`. -/

/-- Exported sub-subparagraph node. -/
structure ESubsubT where
  number : String
  text : String
deriving DecidableEq, Repr

/-- Exported subparagraph node. -/
structure ESubT where
  letter : String
  text : String
  subsubparagraphs : List ESubsubT
deriving DecidableEq, Repr

/-- Exported paragraph node. -/
structure EParaT where
  number : String
  text : String
  subparagraphs : List ESubT
deriving DecidableEq, Repr

/-- Exported requirement entry. -/
structure EReqT where
  text : String
  is_obligation : Bool
  is_right : Bool
  is_time_requirement : Bool
deriving DecidableEq, Repr

/-- Exported article sub-tree. -/
structure EArticleT where
  number : String
  title : String
  content : String
  chapter : Option (String × String)
  sect : Option (String × String)
  paragraphs : List EParaT
  requirements : List EReqT
deriving DecidableEq, Repr

/-- Export-side sub-subparagraph query (same SQL, no id in the output). -/
def exportSubsubTs (db : Database) (spid : Nat) : List ESubsubT :=
  (sortByKey (fun r => r.number)
    (db.subsubparagraphs.filter fun r => r.subparagraphId = spid)).map
    fun r => ⟨r.number, r.text⟩

/-- Export-side subparagraph query. -/
def exportSubTs (db : Database) (pid : Nat) : List ESubT :=
  (sortByKey (fun r => r.letter)
    (db.subparagraphs.filter fun r => r.paragraphId = pid)).map
    fun r => ⟨r.letter, r.text, exportSubsubTs db r.id⟩

/-- Export-side paragraph query. -/
def exportParaTs (db : Database) (aid : Nat) : List EParaT :=
  (sortByKey (fun r => r.number)
    (db.paragraphs.filter fun r => r.articleId = aid)).map
    fun r => ⟨r.number, r.text, exportSubTs db r.id⟩

/-- Export-side requirement query. -/
def exportReqTs (db : Database) (aid : Nat) : List EReqT :=
  (db.requirements.filter fun r => r.articleId = aid).map
    fun r => ⟨r.text, r.is_obligation, r.is_right, r.is_time_requirement⟩

/-- The `articles` part of `GDPRParser.export_to_json`: every article row,
ordered by number as text, serialized with its nested tree. -/
def export_to_json_articles (db : Database) : List EArticleT :=
  (sortByKey (fun a => a.number) db.articles).map fun a =>
    ⟨a.number, a.title, a.content, chapterTagOf db a.chapterId,
      sectionTagOf db a.sectionId, exportParaTs db a.id, exportReqTs db a.id⟩

/-- Forget the surrogate id of a reconstructed sub-subparagraph. -/
def stripSubsub (q : SubsubT) : ESubsubT :=
  ⟨q.number, q.text⟩

/-- Forget the surrogate ids of a reconstructed subparagraph. -/
def stripSub (sp : SubT) : ESubT :=
  ⟨sp.letter, sp.text, sp.subsubparagraphs.map stripSubsub⟩

/-- Forget the surrogate ids of a reconstructed paragraph. -/
def stripPara (p : ParaT) : EParaT :=
  ⟨p.number, p.text, p.subparagraphs.map stripSub⟩

/-!  ## KnowledgeStore: search (`search_by_keyword`) -/

/-- The ellipsis affix. -/
def dots : List Char := ['.', '.', '.']

/-- The filter `LIKE '%kw%'` on ASCII text (SQLite LIKE is case-insensitive there). -/
def likeContains (kw s : String) : Bool :=
  containsSub (lowerChars kw.data) (lowerChars s.data)

/-- The snippet construction of `search_by_keyword`: find the first
occurrence of the lowercased keyword in the lowercased paragraph text,
open a window of up to 50 characters on each side, and affix ellipses
when the window is clipped. -/
def search_snippet (paraText keyword : String) : Option String :=
  (findSub (lowerChars keyword.data) (lowerChars paraText.data)).map fun pos =>
    String.mk
      ((if 0 < pos - 50 then dots else []) ++
        ((paraText.data.drop (pos - 50)).take
          (min paraText.data.length (pos + keyword.data.length + 50) - (pos - 50))) ++
        (if min paraText.data.length (pos + keyword.data.length + 50) <
            paraText.data.length then dots else []))

/-- One match entry of a search result. -/
structure SearchMatch where
  paragraph : String
  snippet : Option String
deriving DecidableEq, Repr

/-- One search result: article number, title and matching paragraphs. -/
structure SearchResult where
  article : String
  title : String
  matchEntries : List SearchMatch
deriving DecidableEq, Repr

/-- The read `GDPRParser.search_by_keyword`: articles whose content contains the
keyword, each with its matching paragraphs and context snippets. -/
def search_by_keyword (db : Database) (kw : String) : List SearchResult :=
  (sortByKey (fun a => a.number)
    (db.articles.filter fun a => likeContains kw a.content)).map fun a =>
    ⟨a.number, a.title,
      (sortByKey (fun p => p.number)
        (db.paragraphs.filter fun p =>
          p.articleId = a.id && likeContains kw p.text)).map
        fun p => ⟨p.number, search_snippet p.text kw⟩⟩

/-- The C8 witness text: 200 characters with "key" at offset 10. -/
def snippetDemoText : String :=
  String.mk (List.replicate 10 'a' ++ ['k', 'e', 'y'] ++ List.replicate 187 'b')

/-!  ## KnowledgeStore: population (`populate_database`) and the pipeline

The SQLite connection is modelled as a state carrying the committed rows
(durable store content), the uncommitted pending rows of the open implicit
transaction, the next surrogate id (`lastrowid` is returned by each
insert) and an operation counter.  Failures of individual `INSERT`
statements (storage errors, constraint violations) are injected by an
oracle on the operation counter; a failing insert raises, leaving the
transaction uncommitted.  `populate_database` issues every insert and then
performs its single `conn.commit()` at the end. -/

/-- One row of any table inserted by `populate_database`.  Foreign keys
hold the surrogate ids resolved through the id maps; `Option` mirrors the
nullable columns and the `dict.get` lookups of the source. -/
inductive Row where
  | chapter (number title : String)
  | sect (chapterId : Option Nat) (number title : String)
  | recital (number content : String)
  | article (number title content : String) (chapterId sectionId : Option Nat)
  | paragraph (articleId : Nat) (number text : String)
  | subparagraph (paragraphId : Nat) (letter text : String)
  | subsubparagraph (subparagraphId : Nat) (number text : String)
  | requirement (articleId : Nat) (paragraphId subparagraphId : Option Nat)
      (text : String) (is_obligation is_right is_time_requirement : Bool)
  | entity (articleId : Nat) (text label : String) (startPos endPos : Nat)
  | definition (term defn : String) (articleId paragraphId subparagraphId : Option Nat)
  | crossReference (fromArticleId toArticleId : Nat) (toParagraph : Option String)
  | timeRequirement (articleId paragraphId subparagraphId : Option Nat) (text : String)
  | keyActor (actorType : String) (articleId : Nat) (text : String)
  | policySection (name descr related required : String)
deriving DecidableEq, Repr

/-- The connection state: durable committed rows, pending rows of the open
transaction, next surrogate id, and an insert counter for failure
injection. -/
structure DBState where
  committed : List (Nat × Row)
  pending : List (Nat × Row)
  nextId : Nat
  opCount : Nat
deriving DecidableEq, Repr

/-- One `INSERT`: fails when the oracle says so (the exception aborts the
statement and adds no row); otherwise appends the row to the pending
transaction and returns `lastrowid`. -/
def executeInsert (o : Nat → Bool) (r : Row) (s : DBState) :
    Except DBState (Nat × DBState) :=
  if o s.opCount then .error { s with opCount := s.opCount + 1 }
  else .ok (s.nextId,
    { s with pending := s.pending ++ [(s.nextId, r)]
             nextId := s.nextId + 1
             opCount := s.opCount + 1 })

/-- The commit `conn.commit()`: the pending transaction becomes durable. -/
def commitDB (s : DBState) : DBState :=
  { s with committed := s.committed ++ s.pending, pending := [] }

/-- Generic sequential loop of fallible inserts threading an accumulator
(the id maps); a raised exception aborts the whole loop. -/
def foldInserts {α β : Type} (step : α → DBState → β → Except DBState (β × DBState)) :
    List α → DBState → β → Except DBState (β × DBState)
  | [], s, acc => .ok (acc, s)
  | x :: rest, s, acc =>
    match step x s acc with
    | .error s' => .error s'
    | .ok (acc', s') => foldInserts step rest s' acc'

/-- A loop body consisting of a single insert whose row depends only on
the loop element, updating the id-map accumulator with `lastrowid`. -/
def simpleInsertStep {α β : Type} (o : Nat → Bool) (row : α → Row)
    (upd : α → Nat → β → β) : α → DBState → β → Except DBState (β × DBState) :=
  fun x s acc =>
    match executeInsert o (row x) s with
    | .error s' => .error s'
    | .ok (i, s') => .ok (upd x i acc, s')

/-- A loop body that first resolves an optional id and skips the insert
when it is absent (the `if article_id:` guards of the source). -/
def skipInsertStep {α β : Type} (o : Nat → Bool) (g : α → Option Nat)
    (row : α → Nat → Row) : α → DBState → β → Except DBState (β × DBState) :=
  fun x s acc =>
    match g x with
    | none => .ok (acc, s)
    | some v =>
      match executeInsert o (row x v) s with
      | .error s' => .error s'
      | .ok (_, s') => .ok (acc, s')

/-- An entity mention attached to an article of the model. -/
structure MEntity where
  text : String
  label : String
  startPos : Nat
  endPos : Nat
deriving DecidableEq, Repr

/-- An article of the in-memory model handed to `populate_database`. -/
structure MArticle where
  number : String
  title : String
  content : String
  chapterTag : Option (String × String)
  sectionTag : Option (String × String)
  paragraphs : List Paragraph
  requirements : List Requirement
  entities : List MEntity
deriving DecidableEq, Repr

/-- A definition record of the model (`self.definitions` values). -/
structure MDefinition where
  term : String
  definition : String
  article : String
  paragraph : String
  subparagraph : Option String
deriving DecidableEq, Repr

/-- The full in-memory model consumed by `populate_database`: the parser's
caches and the articles argument. -/
structure PModel where
  chapters : List (String × String)
  sections : List (String × String)
  recitals : List (String × String)
  articles : List MArticle
  definitions : List (String × MDefinition)
  crossReferences : List (String × List CrossRef)
  timeRequirements : List TimeRequirement
  actors : List (String × List (String × String))
deriving DecidableEq, Repr

/-- String-keyed id map (`chapter_id_map`, `section_id_map`,
`article_id_map`); later writes shadow earlier ones. -/
abbrev SMap := List (String × Nat)

/-- An `(article, paragraph)`-keyed id map. -/
abbrev ParaMap := List ((String × String) × Nat)

/-- An `(article, paragraph, letter)`-keyed id map. -/
abbrev SubMap := List ((String × String × String) × Nat)

/-- The chapter id attached to a section row: the first article whose
section number matches and which has a chapter determines it. -/
def sectionChapterId (arts : List MArticle) (chMap : SMap) (secNum : String) :
    Option Nat :=
  match arts.find? fun a =>
      (a.sectionTag.map Prod.fst == some secNum) && a.chapterTag.isSome with
  | some a =>
    match a.chapterTag with
    | some t => chMap.lookup t.1
    | none => none
  | none => none

/-- Insert the chapters, building `chapter_id_map`. -/
def insertChapters (o : Nat → Bool) (chs : List (String × String)) (s : DBState) :
    Except DBState (SMap × DBState) :=
  foldInserts (simpleInsertStep o (fun c => .chapter c.1 c.2)
    (fun c cid m => (c.1, cid) :: m)) chs s []

/-- Insert the sections, building `section_id_map`. -/
def insertSections (o : Nat → Bool) (arts : List MArticle) (chMap : SMap)
    (secs : List (String × String)) (s : DBState) :
    Except DBState (SMap × DBState) :=
  foldInserts (simpleInsertStep o
    (fun sec => .sect (sectionChapterId arts chMap sec.1) sec.1 sec.2)
    (fun sec sid m => (sec.1, sid) :: m)) secs s []

/-- Insert the recitals. -/
def insertRecitals (o : Nat → Bool) (recs : List (String × String)) (s : DBState) :
    Except DBState (Unit × DBState) :=
  foldInserts (simpleInsertStep o (fun rc => .recital rc.1 rc.2)
    (fun _ _ _ => ())) recs s ()

/-- Insert the sub-subparagraphs of one subparagraph. -/
def insertSubsubs (o : Nat → Bool) (spid : Nat) (qs : List Subsubparagraph)
    (s : DBState) : Except DBState (Unit × DBState) :=
  foldInserts (simpleInsertStep o (fun q => .subsubparagraph spid q.number q.text)
    (fun _ _ _ => ())) qs s ()

/-- One subparagraph: insert it, then decompose its sub-subparagraphs. -/
def subparaStep (o : Nat → Bool) (artNum paraNum : String) (pid : Nat) :
    Subparagraph → DBState → SubMap → Except DBState (SubMap × DBState) :=
  fun sp s sm =>
    match executeInsert o (.subparagraph pid sp.letter sp.text) s with
    | .error s' => .error s'
    | .ok (spid, s') =>
      match insertSubsubs o spid sp.subsubparagraphs s' with
      | .error s'' => .error s''
      | .ok (_, s'') => .ok (((artNum, paraNum, sp.letter), spid) :: sm, s'')

/-- Insert the subparagraphs of one paragraph, extending the
subparagraph id map. -/
def insertSubparas (o : Nat → Bool) (artNum paraNum : String) (pid : Nat)
    (sps : List Subparagraph) (s : DBState) (sm : SubMap) :
    Except DBState (SubMap × DBState) :=
  foldInserts (subparaStep o artNum paraNum pid) sps s sm

/-- One paragraph: insert it, then decompose its subparagraphs. -/
def paraStep (o : Nat → Bool) (artNum : String) (aid : Nat) :
    Paragraph → DBState → (ParaMap × SubMap) →
      Except DBState ((ParaMap × SubMap) × DBState) :=
  fun p s acc =>
    match executeInsert o (.paragraph aid p.number p.text) s with
    | .error s' => .error s'
    | .ok (pid, s') =>
      match insertSubparas o artNum p.number pid p.subparagraphs s' acc.2 with
      | .error s'' => .error s''
      | .ok (sm', s'') => .ok ((((artNum, p.number), pid) :: acc.1, sm'), s'')

/-- Insert the paragraphs of one article, extending both id maps. -/
def insertParas (o : Nat → Bool) (artNum : String) (aid : Nat)
    (ps : List Paragraph) (s : DBState) (pm : ParaMap) (sm : SubMap) :
    Except DBState ((ParaMap × SubMap) × DBState) :=
  foldInserts (paraStep o artNum aid) ps s (pm, sm)

/-- Insert the requirements of one article, resolving the parent ids
through the maps (`dict.get`: absent keys yield NULL). -/
def insertReqs (o : Nat → Bool) (artNum : String) (aid : Nat) (pm : ParaMap)
    (sm : SubMap) (rs : List Requirement) (s : DBState) :
    Except DBState (Unit × DBState) :=
  foldInserts (simpleInsertStep o
    (fun r => .requirement aid (pm.lookup (artNum, r.paragraph))
      (match r.subparagraph with
        | some letter => sm.lookup (artNum, r.paragraph, letter)
        | none => none)
      r.text r.is_obligation r.is_right r.is_time_requirement)
    (fun _ _ _ => ())) rs s ()

/-- Insert the entities of one article. -/
def insertEntities (o : Nat → Bool) (aid : Nat) (es : List MEntity) (s : DBState) :
    Except DBState (Unit × DBState) :=
  foldInserts (simpleInsertStep o
    (fun e => .entity aid e.text e.label e.startPos e.endPos)
    (fun _ _ _ => ())) es s ()

/-- One article: insert its row (chapter/section ids resolved), then its
paragraph tree, requirements and entities. -/
def articleStep (o : Nat → Bool) (chMap secMap : SMap) :
    MArticle → DBState → (SMap × ParaMap × SubMap) →
      Except DBState ((SMap × ParaMap × SubMap) × DBState) :=
  fun a s acc =>
    match executeInsert o (.article a.number a.title a.content
        (a.chapterTag.bind fun t => chMap.lookup t.1)
        (a.sectionTag.bind fun t => secMap.lookup t.1)) s with
    | .error s' => .error s'
    | .ok (aid, s') =>
      match insertParas o a.number aid a.paragraphs s' acc.2.1 acc.2.2 with
      | .error s'' => .error s''
      | .ok ((pm', sm'), s'') =>
        match insertReqs o a.number aid pm' sm' a.requirements s'' with
        | .error s3 => .error s3
        | .ok (_, s3) =>
          match insertEntities o aid a.entities s3 with
          | .error s4 => .error s4
          | .ok (_, s4) => .ok (((a.number, aid) :: acc.1, pm', sm'), s4)

/-- Insert each article with its paragraph tree, requirements and
entities; the accumulator carries the article/paragraph/subparagraph id
maps. -/
def insertArticles (o : Nat → Bool) (chMap secMap : SMap) (arts : List MArticle)
    (s : DBState) : Except DBState ((SMap × ParaMap × SubMap) × DBState) :=
  foldInserts (articleStep o chMap secMap) arts s ([], [], [])

/-- Insert the definitions (ids resolved through the maps, NULL when
absent). -/
def insertDefs (o : Nat → Bool) (am : SMap) (pm : ParaMap) (sm : SubMap)
    (ds : List (String × MDefinition)) (s : DBState) :
    Except DBState (Unit × DBState) :=
  foldInserts (simpleInsertStep o
    (fun td => .definition td.1 td.2.definition (am.lookup td.2.article)
      (pm.lookup (td.2.article, td.2.paragraph))
      (match td.2.subparagraph with
        | some letter => sm.lookup (td.2.article, td.2.paragraph, letter)
        | none => none))
    (fun _ _ _ => ())) ds s ()

/-- Insert the references of one source article (the source resolved). -/
def insertRefList (o : Nat → Bool) (am : SMap) (fid : Nat)
    (refs : List CrossRef) (s : DBState) : Except DBState (Unit × DBState) :=
  foldInserts (skipInsertStep o (fun ref => am.lookup ref.article)
    (fun ref tid => .crossReference fid tid ref.paragraph)) refs s ()

/-- One source article's references: skipped entirely when the source
article number is unknown. -/
def crossRefStep (o : Nat → Bool) (am : SMap) :
    (String × List CrossRef) → DBState → Unit → Except DBState (Unit × DBState) :=
  fun fr s _ =>
    match am.lookup fr.1 with
    | none => .ok ((), s)
    | some fid => insertRefList o am fid fr.2 s

/-- Insert the cross-references: sources or targets whose article number
is unknown are skipped. -/
def insertCrossRefs (o : Nat → Bool) (am : SMap)
    (crs : List (String × List CrossRef)) (s : DBState) :
    Except DBState (Unit × DBState) :=
  foldInserts (crossRefStep o am) crs s ()

/-- Insert the time requirements. -/
def insertTimeReqs (o : Nat → Bool) (am : SMap) (pm : ParaMap) (sm : SubMap)
    (ts : List TimeRequirement) (s : DBState) :
    Except DBState (Unit × DBState) :=
  foldInserts (simpleInsertStep o
    (fun t => .timeRequirement (am.lookup t.article)
      (pm.lookup (t.article, t.paragraph))
      (match t.subparagraph with
        | some letter => sm.lookup (t.article, t.paragraph, letter)
        | none => none) t.text)
    (fun _ _ _ => ())) ts s ()

/-- Insert the mentions of one actor type (unknown articles skipped). -/
def insertMentions (o : Nat → Bool) (am : SMap) (actorType : String)
    (ms : List (String × String)) (s : DBState) :
    Except DBState (Unit × DBState) :=
  foldInserts (skipInsertStep o (fun mt => am.lookup mt.1)
    (fun mt aid => .keyActor actorType aid mt.2)) ms s ()

/-- One actor type: insert its mentions. -/
def actorStep (o : Nat → Bool) (am : SMap) :
    (String × List (String × String)) → DBState → Unit →
      Except DBState (Unit × DBState) :=
  fun ac s _ => insertMentions o am ac.1 ac.2 s

/-- Insert the key actors grouped by actor type. -/
def insertActors (o : Nat → Bool) (am : SMap)
    (acts : List (String × List (String × String))) (s : DBState) :
    Except DBState (Unit × DBState) :=
  foldInserts (actorStep o am) acts s ()

/-- The eleven hard-coded privacy policy section rows. -/
def privacy_policy_sections : List (String × String × String × String) :=
  [("Identity and Contact Details",
    "Information about the data controller and their contact details",
    "13(1)(a), 14(1)(a)",
    "Controller identity, contact details, DPO contact if applicable"),
   ("Types of Data Collected",
    "Categories of personal data being processed",
    "13(1)(c), 14(1)(d)",
    "Description of all categories of personal data processed"),
   ("Purposes of Processing",
    "Purposes for which personal data is processed",
    "13(1)(c), 14(1)(c)",
    "All purposes for which data is collected and processed"),
   ("Legal Basis",
    "Legal basis for processing personal data",
    "13(1)(c), 14(1)(c)",
    "Legal basis under Article 6 (and Article 9 if applicable)"),
   ("Recipients of Data",
    "Third parties who receive the data",
    "13(1)(e), 14(1)(e)",
    "Recipients or categories of recipients of personal data"),
   ("Data Transfers",
    "Information about international data transfers",
    "13(1)(f), 14(1)(f)",
    "Details of transfers to third countries, safeguards, means to obtain copy"),
   ("Retention Period",
    "How long data will be stored",
    "13(2)(a), 14(2)(a)",
    "Period data will be stored or criteria to determine period"),
   ("Data Subject Rights",
    "Rights available to individuals",
    "13(2)(b), 14(2)(c)",
    "Access, rectification, erasure, restriction, objection, portability rights"),
   ("Withdrawal of Consent",
    "Right to withdraw consent at any time",
    "13(2)(c), 14(2)(d)",
    "Information about right to withdraw consent and how to do so"),
   ("Complaint Rights",
    "Right to lodge a complaint with supervisory authority",
    "13(2)(d), 14(2)(e)",
    "Right to lodge complaint and contact details of supervisory authority"),
   ("Automated Decision Making",
    "Information about automated decision-making, including profiling",
    "13(2)(f), 14(2)(g)",
    "Existence, logic involved, significance and consequences of such processing")]

/-- Insert the privacy policy section rows. -/
def insertPolicySections (o : Nat → Bool)
    (ps : List (String × String × String × String)) (s : DBState) :
    Except DBState (Unit × DBState) :=
  foldInserts (simpleInsertStep o
    (fun p => .policySection p.1 p.2.1 p.2.2.1 p.2.2.2)
    (fun _ _ _ => ())) ps s ()

/-- The writer `GDPRParser.populate_database`: all inserts in dependency order, then
one `conn.commit()`.  A raised insert error propagates (return flag
`false` here stands for the raised exception leaving the function), and
nothing is committed in that case. -/
def populate_database (o : Nat → Bool) (m : PModel) (s : DBState) : DBState × Bool :=
  match insertChapters o m.chapters s with
  | .error s' => (s', false)
  | .ok (chMap, s1) =>
    match insertSections o m.articles chMap m.sections s1 with
    | .error s' => (s', false)
    | .ok (secMap, s2) =>
      match insertRecitals o m.recitals s2 with
      | .error s' => (s', false)
      | .ok (_, s3) =>
        match insertArticles o chMap secMap m.articles s3 with
        | .error s' => (s', false)
        | .ok ((am, pm, sm), s4) =>
          match insertDefs o am pm sm m.definitions s4 with
          | .error s' => (s', false)
          | .ok (_, s5) =>
            match insertCrossRefs o am m.crossReferences s5 with
            | .error s' => (s', false)
            | .ok (_, s6) =>
              match insertTimeReqs o am pm sm m.timeRequirements s6 with
              | .error s' => (s', false)
              | .ok (_, s7) =>
                match insertActors o am m.actors s7 with
                | .error s' => (s', false)
                | .ok (_, s8) =>
                  match insertPolicySections o privacy_policy_sections s8 with
                  | .error s' => (s', false)
                  | .ok (_, s9) => (commitDB s9, true)

/-- The state relation maintained by every insert: the committed store is
untouched and the pending transaction only grows at the end. -/
def Extends (s s' : DBState) : Prop :=
  s'.committed = s.committed ∧ ∃ δ, s'.pending = s.pending ++ δ

/-- A loop step never touches the committed store and only appends to the
pending transaction, whether it succeeds or raises. -/
def StepSpec {α β : Type} (step : α → DBState → β → Except DBState (β × DBState)) :
    Prop :=
  ∀ x s acc,
    (∀ s', step x s acc = .error s' → Extends s s') ∧
    (∀ acc' s', step x s acc = .ok (acc', s') → Extends s s')

/-- A row occurs (under some surrogate id) in a row list. -/
def RowIn (r : Row) (rows : List (Nat × Row)) : Prop :=
  ∃ id, (id, r) ∈ rows

/-- All rows of one subparagraph subtree occur in the list. -/
def SubparaRowsIn (sp : Subparagraph) (rows : List (Nat × Row)) : Prop :=
  (∃ pid, RowIn (.subparagraph pid sp.letter sp.text) rows) ∧
  ∀ q ∈ sp.subsubparagraphs, ∃ spid, RowIn (.subsubparagraph spid q.number q.text) rows

/-- All rows of one paragraph subtree occur in the list. -/
def ParaRowsIn (p : Paragraph) (rows : List (Nat × Row)) : Prop :=
  (∃ aid, RowIn (.paragraph aid p.number p.text) rows) ∧
  ∀ sp ∈ p.subparagraphs, SubparaRowsIn sp rows

/-- All rows of one article (row, tree, requirements, entities) occur. -/
def ArticleRowsIn (a : MArticle) (rows : List (Nat × Row)) : Prop :=
  (∃ ch se, RowIn (.article a.number a.title a.content ch se) rows) ∧
  (∀ p ∈ a.paragraphs, ParaRowsIn p rows) ∧
  (∀ r ∈ a.requirements, ∃ aid pid spid,
    RowIn (.requirement aid pid spid r.text r.is_obligation r.is_right
      r.is_time_requirement) rows) ∧
  (∀ e ∈ a.entities, ∃ aid, RowIn (.entity aid e.text e.label e.startPos e.endPos) rows)

/-- Every unconditionally inserted row of the model occurs in the list. -/
def ModelRowsIn (m : PModel) (rows : List (Nat × Row)) : Prop :=
  (∀ c ∈ m.chapters, RowIn (.chapter c.1 c.2) rows) ∧
  (∀ sec ∈ m.sections, ∃ ch, RowIn (.sect ch sec.1 sec.2) rows) ∧
  (∀ rc ∈ m.recitals, RowIn (.recital rc.1 rc.2) rows) ∧
  (∀ a ∈ m.articles, ArticleRowsIn a rows) ∧
  (∀ td ∈ m.definitions, ∃ aid pid spid,
    RowIn (.definition td.1 td.2.definition aid pid spid) rows) ∧
  (∀ t ∈ m.timeRequirements, ∃ aid pid spid,
    RowIn (.timeRequirement aid pid spid t.text) rows)

/-- A small one-of-each model used to evaluate population concretely. -/
def pmodel₁ : PModel :=
  { chapters := [("I", "General")]
    sections := []
    recitals := [("1", "Whereas")]
    articles := [⟨"1", "T", "c", some ("I", "General"), none,
      [⟨"1", "text", []⟩],
      [⟨"1", none, "The controller shall act", true, false, false⟩], []⟩]
    definitions := []
    crossReferences := []
    timeRequirements := []
    actors := [] }

/-- The empty connection state. -/
def dbS0 : DBState := ⟨[], [], 1, 0⟩

/-- The failure surface of a `parse_and_load` run: a flag for an exception
raised by any stage before database population (extraction and the
external libraries), and the insert-failure oracle of the population
phase. -/
structure PipeOracle where
  failBefore : Bool
  insertFail : Nat → Bool

/-- The driver `GDPRParser.parse_and_load`: the whole pipeline inside `try`; any
exception is caught, logged and converted to the return value `False`,
and only a fully committed run returns `True`. -/
def parse_and_load (po : PipeOracle) (m : PModel) (s : DBState) : DBState × Bool :=
  if po.failBefore then (s, false)
  else populate_database po.insertFail m s

theorem goodWs_nil : GoodWs [] :=
  ⟨fun _ h => absurd h (List.not_mem_nil _), List.chain'_nil⟩

theorem goodWs_tail {c : Char} {l : List Char} (h : GoodWs (c :: l)) : GoodWs l :=
  ⟨fun x hx hws => h.1 x (List.mem_cons_of_mem _ hx) hws, h.2.tail⟩

theorem goodWs_drop {l : List Char} (n : Nat) (h : GoodWs l) : GoodWs (l.drop n) := by
  constructor
  · intro c hc hws
    exact h.1 c ((List.drop_sublist n l).mem hc) hws
  · induction n with
    | zero => exact h.2
    | succ k ih =>
      rw [← List.tail_drop]
      exact ih.tail

theorem goodWs_dropWhile {q : Char → Bool} {l : List Char} (h : GoodWs l) :
    GoodWs (l.dropWhile q) := by
  induction l with
  | nil => exact h
  | cons c cs ih =>
    rw [List.dropWhile_cons]
    by_cases hq : q c = true
    · simp only [hq, if_true]
      exact ih (goodWs_tail h)
    · simp only [hq, if_false]
      exact h

theorem chain'_of_no_ws {l : List Char} (h : ∀ c ∈ l, pyIsSpace c = false) :
    NoAdjWs l := by
  induction l with
  | nil => exact List.chain'_nil
  | cons c cs ih =>
    rw [NoAdjWs, List.chain'_cons']
    refine ⟨?_, ih fun x hx => h x (List.mem_cons_of_mem _ hx)⟩
    intro y _ hy
    rw [h c (List.mem_cons_self c cs)] at hy
    exact absurd hy.1 (by simp)

theorem collapseWs_good (l : List Char) :
    ∀ b, GoodWs (collapseWs b l) ∧
      (b = true → ∀ h ∈ (collapseWs b l).head?, pyIsSpace h = false) := by
  induction l with
  | nil => intro b; exact ⟨goodWs_nil, fun _ _ h => absurd h (by simp [collapseWs])⟩
  | cons c cs ih =>
    intro b
    by_cases hws : pyIsSpace c = true
    · cases b with
      | true =>
        have := ih true
        simpa [collapseWs, hws] using this
      | false =>
        have e : collapseWs false (c :: cs) = ' ' :: collapseWs true cs := by
          simp [collapseWs, hws]
        rw [e]
        have ihT := ih true
        refine ⟨⟨?_, ?_⟩, fun hff => by cases hff⟩
        · intro x hx hxws
          rcases List.mem_cons.mp hx with h1 | h2
          · exact h1
          · exact (ihT.1).1 x h2 hxws
        · rw [NoAdjWs, List.chain'_cons']
          refine ⟨?_, (ihT.1).2⟩
          intro y hy hcon
          have := ihT.2 rfl y hy
          rw [this] at hcon
          exact absurd hcon.2 (by simp)
    · simp only [collapseWs, hws, if_false, Bool.false_eq_true]
      have ihF := ih false
      have hne : pyIsSpace c = false := by
        cases hc : pyIsSpace c with
        | false => rfl
        | true => exact absurd hc hws
      refine ⟨⟨?_, ?_⟩, ?_⟩
      · intro x hx hxws
        rcases List.mem_cons.mp hx with h1 | h2
        · subst h1; rw [hne] at hxws; cases hxws
        · exact (ihF.1).1 x h2 hxws
      · rw [NoAdjWs, List.chain'_cons']
        refine ⟨?_, (ihF.1).2⟩
        intro y _ hcon
        rw [hne] at hcon
        exact absurd hcon.1 (by simp)
      · intro _ h hh
        simp only [List.head?_cons, Option.mem_def, Option.some.injEq] at hh
        subst hh
        exact hne

theorem replaceAux_good {p r : List Char}
    (hr : ∀ c ∈ r, pyIsSpace c = false) (hrne : r ≠ []) :
    ∀ fuel l, GoodWs l →
      GoodWs (replaceAux p r fuel l) ∧ HeadWsLe (replaceAux p r fuel l) l := by
  intro fuel
  induction fuel with
  | zero =>
    intro l hl
    exact ⟨hl, fun h hh hws => ⟨h, hh, hws⟩⟩
  | succ k ih =>
    intro l hl
    cases l with
    | nil =>
      refine ⟨goodWs_nil, ?_⟩
      intro h hh _
      simp [replaceAux] at hh
    | cons c cs =>
      by_cases hm : isPrefList p (c :: cs) = true
      · simp only [replaceAux, hm, if_true]
        have hrest : GoodWs ((c :: cs).drop p.length) := goodWs_drop _ hl
        obtain ⟨hg, hhead⟩ := ih _ hrest
        have hrchain : NoAdjWs r := chain'_of_no_ws hr
        refine ⟨⟨?_, ?_⟩, ?_⟩
        · intro x hx hxws
          rcases List.mem_append.mp hx with h1 | h2
          · rw [hr x h1] at hxws; cases hxws
          · exact hg.1 x h2 hxws
        · rw [NoAdjWs, List.chain'_append]
          refine ⟨hrchain, hg.2, ?_⟩
          intro x hx _ _ hcon
          have hxr : x ∈ r := List.mem_of_mem_getLast? hx
          rw [hr x hxr] at hcon
          exact absurd hcon.1 (by simp)
        · intro h hh hws
          cases r with
          | nil => exact absurd rfl hrne
          | cons r0 rs =>
            simp only [List.cons_append, List.head?_cons, Option.mem_def,
              Option.some.injEq] at hh
            subst hh
            rw [hr r0 (List.mem_cons_self r0 rs)] at hws
            cases hws
      · simp only [replaceAux, hm, if_false, Bool.false_eq_true]
        obtain ⟨hg, hhead⟩ := ih cs (goodWs_tail hl)
        refine ⟨⟨?_, ?_⟩, ?_⟩
        · intro x hx hxws
          rcases List.mem_cons.mp hx with h1 | h2
          · subst h1; exact hl.1 x (List.mem_cons_self _ _) hxws
          · exact hg.1 x h2 hxws
        · rw [NoAdjWs, List.chain'_cons']
          refine ⟨?_, hg.2⟩
          intro y hy hcon
          obtain ⟨h₀, hh₀, hh₀ws⟩ := hhead y hy hcon.2
          cases cs with
          | nil => simp at hh₀
          | cons c1 cs1 =>
            simp only [List.head?_cons, Option.mem_def, Option.some.injEq] at hh₀
            subst hh₀
            have hcc := List.chain'_cons'.mp hl.2
            exact hcc.1 c1 (by simp) ⟨hcon.1, hh₀ws⟩
        · intro h hh hws
          simp only [List.head?_cons, Option.mem_def, Option.some.injEq] at hh
          subst hh
          exact ⟨c, by simp, hws⟩

theorem pyReplace_good {p r : List Char}
    (hr : ∀ c ∈ r, pyIsSpace c = false) (hrne : r ≠ []) {l : List Char}
    (hl : GoodWs l) : GoodWs (pyReplace p r l) :=
  (replaceAux_good hr hrne l.length l hl).1

theorem digit_not_ws {c : Char} (h : isDigitC c = true) : pyIsSpace c = false := by
  cases hw : pyIsSpace c with
  | false => rfl
  | true =>
    exfalso
    simp only [pyIsSpace, Bool.or_eq_true, beq_iff_eq] at hw
    rcases hw with (((((h1 | h1) | h1) | h1) | h1) | h1) <;> subst h1 <;>
      exact absurd h (by decide)

theorem head_dropWhile_ws (l : List Char) :
    ∀ h ∈ (l.dropWhile pyIsSpace).head?, pyIsSpace h = false := by
  have hnot := List.head?_dropWhile_not pyIsSpace l
  intro h hh
  cases e : (l.dropWhile pyIsSpace).head? with
  | none => rw [e] at hh; cases hh
  | some x =>
    rw [e] at hh hnot
    simp only [Option.mem_def, Option.some.injEq] at hh
    subst hh
    exact hnot

theorem matchArticle_some {l ds rest : List Char}
    (h : matchArticle l = some (ds, rest)) :
    (∀ c ∈ ds, isDigitC c = true) ∧ ds ≠ [] ∧
      (∀ x ∈ rest.head?, pyIsSpace x = false) ∧ (GoodWs l → GoodWs rest) := by
  unfold matchArticle at h
  by_cases h1 : isPrefList articleChars l = true
  · rw [if_pos h1] at h
    simp only [] at h
    by_cases h2 : ((l.drop 7).takeWhile pyIsSpace).isEmpty = true
    · rw [if_pos h2] at h; cases h
    · rw [if_neg h2] at h
      by_cases h3 : (((l.drop 7).dropWhile pyIsSpace).takeWhile isDigitC).isEmpty = true
      · rw [if_pos h3] at h; cases h
      · rw [if_neg h3] at h
        cases e : (((l.drop 7).dropWhile pyIsSpace).dropWhile isDigitC).dropWhile pyIsSpace with
        | nil => rw [e] at h; cases h
        | cons d r4 =>
          rw [e] at h
          dsimp only at h
          by_cases h4 : isDashC d = true
          · rw [if_pos h4] at h
            injection h with h'
            injection h' with hds hrest
            subst hds
            subst hrest
            refine ⟨fun c hc => List.mem_takeWhile_imp hc, ?_, head_dropWhile_ws _, ?_⟩
            · intro hemp
              rw [hemp] at h3
              exact h3 rfl
            · intro hg
              have g1 : GoodWs ((l.drop 7).dropWhile pyIsSpace) :=
                goodWs_dropWhile (goodWs_drop 7 hg)
              have g2 : GoodWs (((l.drop 7).dropWhile pyIsSpace).dropWhile isDigitC) :=
                goodWs_dropWhile g1
              have g3 : GoodWs (d :: r4) := by rw [← e]; exact goodWs_dropWhile g2
              exact goodWs_dropWhile (goodWs_tail g3)
          · rw [if_neg h4] at h; cases h
  · rw [if_neg h1] at h; cases h

theorem articleChars_not_ws : ∀ c ∈ articleChars, pyIsSpace c = false := by decide

theorem noAdjWs_append {l₁ l₂ : List Char} (h₁ : NoAdjWs l₁) (h₂ : NoAdjWs l₂)
    (hseam : ∀ x ∈ l₁.getLast?, ∀ y ∈ l₂.head?, ¬(pyIsSpace x = true ∧ pyIsSpace y = true)) :
    NoAdjWs (l₁ ++ l₂) :=
  List.chain'_append.mpr ⟨h₁, h₂, hseam⟩

theorem normArtAux_good : ∀ (fuel : Nat) (l : List Char), GoodWs l →
    GoodWs (normArtAux fuel l) ∧ HeadWsLe (normArtAux fuel l) l := by
  intro fuel
  induction fuel with
  | zero => intro l hl; exact ⟨hl, fun h hh hws => ⟨h, hh, hws⟩⟩
  | succ k ih =>
    intro l hl
    cases l with
    | nil =>
      refine ⟨goodWs_nil, ?_⟩
      intro h hh _
      simp [normArtAux] at hh
    | cons c cs =>
      cases e : matchArticle (c :: cs) with
      | some p =>
        obtain ⟨ds, rest⟩ := p
        obtain ⟨hds, hdsne, hresthead, hrestgood⟩ := matchArticle_some e
        obtain ⟨hg, hhead⟩ := ih rest (hrestgood hl)
        have hres : normArtAux (k + 1) (c :: cs) = articleRepl ds ++ normArtAux k rest := by
          simp [normArtAux, e]
        rw [hres]
        have hdsnws : ∀ x ∈ ds, pyIsSpace x = false := fun x hx => digit_not_ws (hds x hx)
        have hrechead : ∀ y ∈ (normArtAux k rest).head?, pyIsSpace y = false := by
          intro y hy
          cases hw : pyIsSpace y with
          | false => rfl
          | true =>
            obtain ⟨h₀, hh₀, hh₀ws⟩ := hhead y hy hw
            rw [hresthead h₀ hh₀] at hh₀ws
            cases hh₀ws
        have hassoc : articleRepl ds ++ normArtAux k rest =
            articleChars ++ (' ' :: (ds ++ (' ' :: '-' :: ' ' :: normArtAux k rest))) := by
          simp [articleRepl, List.append_assoc]
        rw [hassoc]
        refine ⟨⟨?_, ?_⟩, ?_⟩
        · intro x hx hxws
          simp only [List.mem_append, List.mem_cons] at hx
          rcases hx with hA | hsp | hd | hsp | hdash | hsp | hx
          · rw [articleChars_not_ws x hA] at hxws; cases hxws
          · exact hsp
          · rw [hdsnws x hd] at hxws; cases hxws
          · exact hsp
          · subst hdash; cases hxws
          · exact hsp
          · exact hg.1 x hx hxws
        · -- no two adjacent whitespace characters in the rebuilt text
          have htail : NoAdjWs (' ' :: '-' :: ' ' :: normArtAux k rest) := by
            rw [NoAdjWs, List.chain'_cons']
            refine ⟨fun y hy => by simp at hy; subst hy; simp [pyIsSpace], ?_⟩
            rw [List.chain'_cons']
            refine ⟨fun y hy hcon => by simp [pyIsSpace] at hcon, ?_⟩
            rw [List.chain'_cons']
            refine ⟨?_, hg.2⟩
            intro y hy hcon
            rw [hrechead y hy] at hcon
            exact absurd hcon.2 (by simp)
          have hmid : NoAdjWs (ds ++ (' ' :: '-' :: ' ' :: normArtAux k rest)) := by
            refine noAdjWs_append (chain'_of_no_ws hdsnws) htail ?_
            intro x hx y _ hcon
            have hxds : x ∈ ds := List.mem_of_mem_getLast? hx
            rw [hdsnws x hxds] at hcon
            exact absurd hcon.1 (by simp)
          have hcons : NoAdjWs (' ' :: (ds ++ (' ' :: '-' :: ' ' :: normArtAux k rest))) := by
            rw [NoAdjWs, List.chain'_cons']
            refine ⟨?_, hmid⟩
            intro y hy hcon
            cases ds with
            | nil => exact hdsne rfl
            | cons d0 ds0 =>
              simp only [List.cons_append, List.head?_cons, Option.mem_def,
                Option.some.injEq] at hy
              subst hy
              have := hdsnws d0 (List.mem_cons_self d0 ds0)
              rw [this] at hcon
              exact absurd hcon.2 (by simp)
          refine noAdjWs_append (chain'_of_no_ws articleChars_not_ws) hcons ?_
          intro x hx y _ hcon
          have hxA : x ∈ articleChars := List.mem_of_mem_getLast? hx
          rw [articleChars_not_ws x hxA] at hcon
          exact absurd hcon.1 (by simp)
        · intro h hh hhws
          simp only [articleChars, List.cons_append, List.head?_cons, Option.mem_def,
            Option.some.injEq] at hh
          subst hh
          cases hhws
      | none =>
        obtain ⟨hg, hhead⟩ := ih cs (goodWs_tail hl)
        have hres : normArtAux (k + 1) (c :: cs) = c :: normArtAux k cs := by
          simp [normArtAux, e]
        rw [hres]
        refine ⟨⟨?_, ?_⟩, ?_⟩
        · intro x hx hxws
          rcases List.mem_cons.mp hx with h1 | h2
          · subst h1; exact hl.1 x (List.mem_cons_self _ _) hxws
          · exact hg.1 x h2 hxws
        · rw [NoAdjWs, List.chain'_cons']
          refine ⟨?_, hg.2⟩
          intro y hy hcon
          obtain ⟨h₀, hh₀, hh₀ws⟩ := hhead y hy hcon.2
          cases cs with
          | nil => simp at hh₀
          | cons c1 cs1 =>
            simp only [List.head?_cons, Option.mem_def, Option.some.injEq] at hh₀
            subst hh₀
            have hcc := List.chain'_cons'.mp hl.2
            exact hcc.1 c1 (by simp) ⟨hcon.1, hh₀ws⟩
        · intro h hh hws
          simp only [List.head?_cons, Option.mem_def, Option.some.injEq] at hh
          subst hh
          exact ⟨c, by simp, hws⟩

theorem preprocess_text_goodWs (s : String) : GoodWs (preprocess_text s).data := by
  have g1 : GoodWs (collapseWs false s.data) := (collapseWs_good s.data false).1
  have g2 := pyReplace_good (p := ['|']) (r := ['I']) (by decide) (by decide) g1
  have g3 := pyReplace_good (p := ['l', '1']) (r := ['h']) (by decide) (by decide) g2
  have g4 := pyReplace_good (p := ['—']) (r := ['-']) (by decide) (by decide) g3
  have g5 := pyReplace_good (p := ['–']) (r := ['-']) (by decide) (by decide) g4
  exact (normArtAux_good
    (pyReplace ['–'] ['-'] (pyReplace ['—'] ['-'] (pyReplace ['l', '1'] ['h']
      (pyReplace ['|'] ['I'] (collapseWs false s.data))))).length
    (pyReplace ['–'] ['-'] (pyReplace ['—'] ['-'] (pyReplace ['l', '1'] ['h']
      (pyReplace ['|'] ['I'] (collapseWs false s.data))))) g5).1

/-- C10: for every input string, the normalized text contains no newline,
every whitespace character in it is the plain space, and no two adjacent
characters are both whitespace — so the newline-bounded header patterns
later scan a single line. -/
theorem preprocess_text_single_line (s : String) :
    '\n' ∉ (preprocess_text s).data ∧
      (∀ c ∈ (preprocess_text s).data, pyIsSpace c = true → c = ' ') ∧
      List.Chain' (fun a b => ¬(pyIsSpace a = true ∧ pyIsSpace b = true))
        (preprocess_text s).data := by
  obtain ⟨h1, h2⟩ := preprocess_text_goodWs s
  refine ⟨?_, h1, h2⟩
  intro hmem
  have := h1 '\n' hmem (by decide)
  cases this

/-- C10 witness: the single-line property evaluated on a concrete raw text
with newlines and doubled spaces. -/
theorem preprocess_text_single_line_witness :
    '\n' ∉ (preprocess_text "CHAPTER I\n\n  General\tprovisions\nArticle 1 — Subject").data ∧
      (∀ c ∈ (preprocess_text "CHAPTER I\n\n  General\tprovisions\nArticle 1 — Subject").data,
        pyIsSpace c = true → c = ' ') ∧
      List.Chain' (fun a b => ¬(pyIsSpace a = true ∧ pyIsSpace b = true))
        (preprocess_text "CHAPTER I\n\n  General\tprovisions\nArticle 1 — Subject").data :=
  preprocess_text_single_line "CHAPTER I\n\n  General\tprovisions\nArticle 1 — Subject"

theorem scanContaining_eq_firstContaining (pos : Nat) (ivs : List Interval) :
    scanContaining pos ivs = firstContaining ivs pos := by
  induction ivs with
  | nil => rfl
  | cons iv rest ih =>
    by_cases hc : iv.start ≤ pos ∧ pos < iv.stop
    · simp [scanContaining, firstContaining, hc]
    · simp only [scanContaining, if_neg hc, ih, firstContaining]
      rw [List.find?_cons_of_neg]
      simpa using hc

theorem extract_articles_zip_tags (text : String) (chs secs : List Interval) :
    ∀ hs : List Marker,
      ∀ p ∈ (extract_articles_with_structure text chs secs hs).zip hs,
        p.1.chapterTag = firstContaining chs p.2.start ∧
        p.1.sectionTag = firstContaining secs p.2.start := by
  intro hs
  induction hs with
  | nil => intro p hp; simp [extract_articles_with_structure] at hp
  | cons h rest ih =>
    intro p hp
    cases rest with
    | nil =>
      simp only [extract_articles_with_structure, List.zip_cons_cons, List.zip_nil_right,
        List.mem_cons, List.not_mem_nil, or_false] at hp
      subst hp
      exact ⟨scanContaining_eq_firstContaining _ _, scanContaining_eq_firstContaining _ _⟩
    | cons h' rest' =>
      simp only [extract_articles_with_structure, List.zip_cons_cons, List.mem_cons] at hp
      rcases hp with hp | hp
      · subst hp
        exact ⟨scanContaining_eq_firstContaining _ _, scanContaining_eq_firstContaining _ _⟩
      · exact ih p hp

theorem extract_articles_chapter_independent (text : String) (chs secs secs' : List Interval) :
    ∀ hs : List Marker,
      (extract_articles_with_structure text chs secs hs).map (fun a => a.chapterTag) =
      (extract_articles_with_structure text chs secs' hs).map (fun a => a.chapterTag) := by
  intro hs
  induction hs with
  | nil => rfl
  | cons h rest ih =>
    cases rest with
    | nil => rfl
    | cons h' rest' =>
      simp only [extract_articles_with_structure, List.map_cons, mkArticleAt]
      rw [ih]

theorem extract_articles_section_independent (text : String) (chs chs' secs : List Interval) :
    ∀ hs : List Marker,
      (extract_articles_with_structure text chs secs hs).map (fun a => a.sectionTag) =
      (extract_articles_with_structure text chs' secs hs).map (fun a => a.sectionTag) := by
  intro hs
  induction hs with
  | nil => rfl
  | cons h rest ih =>
    cases rest with
    | nil => rfl
    | cons h' rest' =>
      simp only [extract_articles_with_structure, List.map_cons, mkArticleAt]
      rw [ih]

/-- C5: every extracted article's chapter tag is the first chapter interval
(in document order, with ends assigned from consecutive starts) whose
half-open interval contains the article header's start offset — `none`
when no interval contains it — and likewise, independently, for the
section tag: each axis is unaffected by the other axis's interval list. -/
theorem extract_articles_first_containing (text : String) (chMs secMs : List Marker)
    (len : Nat) (hs : List Marker) :
    (∀ p ∈ (extract_articles_with_structure text (assignEnds chMs len)
        (assignEnds secMs len) hs).zip hs,
      p.1.chapterTag = firstContaining (assignEnds chMs len) p.2.start ∧
      p.1.sectionTag = firstContaining (assignEnds secMs len) p.2.start) ∧
    (∀ secs' : List Interval,
      (extract_articles_with_structure text (assignEnds chMs len)
        (assignEnds secMs len) hs).map (fun a => a.chapterTag) =
      (extract_articles_with_structure text (assignEnds chMs len) secs' hs).map
        (fun a => a.chapterTag)) ∧
    (∀ chs' : List Interval,
      (extract_articles_with_structure text (assignEnds chMs len)
        (assignEnds secMs len) hs).map (fun a => a.sectionTag) =
      (extract_articles_with_structure text chs' (assignEnds secMs len) hs).map
        (fun a => a.sectionTag)) :=
  ⟨extract_articles_zip_tags text _ _ hs,
   fun secs' => extract_articles_chapter_independent text _ _ secs' hs,
   fun chs' => extract_articles_section_independent text _ chs' _ hs⟩

/-- C5 witness: two articles under one chapter covering the whole text;
both are tagged with that chapter and with no section. -/
theorem extract_articles_first_containing_witness :
    ((⟨⟨"1", "A", "", some ("I", "T"), none⟩, ⟨"1", "A", 5⟩⟩ :
        PArticle × Marker) ∈ (extract_articles_with_structure "x"
          (assignEnds [⟨"I", "T", 0⟩] 30) (assignEnds [] 30)
          [⟨"1", "A", 5⟩, ⟨"2", "B", 20⟩]).zip [⟨"1", "A", 5⟩, ⟨"2", "B", 20⟩]) ∧
    ((⟨"1", "A", "", some ("I", "T"), none⟩ : PArticle).chapterTag =
        firstContaining (assignEnds [⟨"I", "T", 0⟩] 30) 5 ∧
      (⟨"1", "A", "", some ("I", "T"), none⟩ : PArticle).sectionTag =
        firstContaining (assignEnds [] 30) 5) :=
  ⟨by decide,
   (extract_articles_first_containing "x" [⟨"I", "T", 0⟩] [] 30
      [⟨"1", "A", 5⟩, ⟨"2", "B", 20⟩]).1
     ⟨⟨"1", "A", "", some ("I", "T"), none⟩, ⟨"1", "A", 5⟩⟩ (by decide)⟩

/-- C6: when the numbered-paragraph pattern finds zero matches, the
decomposer synthesizes exactly one paragraph numbered "1" whose text is the
whole header-stripped article content and which has no subparagraphs; and
every article leaving the decomposer has at least one paragraph. -/
theorem extract_paragraphs_fallback (o : ParaOracle) (content : String) :
    (o.paraMatches (o.stripHeader content) = [] →
      extract_paragraphs_and_subparagraphs o content =
        [⟨"1", o.stripHeader content, []⟩]) ∧
    extract_paragraphs_and_subparagraphs o content ≠ [] := by
  constructor
  · intro hz
    simp [extract_paragraphs_and_subparagraphs, hz]
  · unfold extract_paragraphs_and_subparagraphs
    cases hm : o.paraMatches (o.stripHeader content) with
    | nil => simp [hm]
    | cons m ms => simp [hm]

/-- C6 witness: on a non-standard article the fallback fires and yields the
single synthetic paragraph. -/
theorem extract_paragraphs_fallback_witness :
    noMatchOracle.paraMatches (noMatchOracle.stripHeader "Unformatted body") = [] ∧
      extract_paragraphs_and_subparagraphs noMatchOracle "Unformatted body" =
        [⟨"1", "Unformatted body", []⟩] ∧
      extract_paragraphs_and_subparagraphs noMatchOracle "Unformatted body" ≠ [] :=
  ⟨rfl,
   (extract_paragraphs_fallback noMatchOracle "Unformatted body").1 rfl,
   (extract_paragraphs_fallback noMatchOracle "Unformatted body").2⟩

theorem sentReq_some {p : Paragraph} {sp : Option String} {s : String} {r : Requirement}
    (h : sentReq p sp s = some r) :
    r.text = pyStripStr s ∧ (isObligationSent r.text || isRightSent r.text) = true := by
  unfold sentReq at h
  by_cases hc : (isObligationSent (pyStripStr s) || isRightSent (pyStripStr s)) = true
  · rw [if_pos hc] at h
    injection h with h'
    subst h'
    exact ⟨rfl, hc⟩
  · rw [if_neg hc] at h
    cases h

theorem sentTimeReq_some {a : String} {p : Paragraph} {sp : Option String} {s : String}
    {tr : TimeRequirement} (h : sentTimeReq a p sp s = some tr) :
    tr.text = pyStripStr s ∧
      ((isObligationSent tr.text || isRightSent tr.text) && isTimeSent tr.text) = true := by
  unfold sentTimeReq at h
  by_cases hc : ((isObligationSent (pyStripStr s) || isRightSent (pyStripStr s)) &&
      isTimeSent (pyStripStr s)) = true
  · rw [if_pos hc] at h
    injection h with h'
    subst h'
    exact ⟨rfl, hc⟩
  · rw [if_neg hc] at h
    cases h

theorem extract_requirements_flag_inv (seg : String → List String) (art : RArticle) :
    (∀ r ∈ (extract_requirements seg art).1,
        (isObligationSent r.text || isRightSent r.text) = true) ∧
    (∀ tr ∈ (extract_requirements seg art).2,
        ((isObligationSent tr.text || isRightSent tr.text) && isTimeSent tr.text) = true) := by
  constructor
  · intro r hr
    simp only [extract_requirements, List.mem_flatMap, List.mem_append,
      List.mem_filterMap] at hr
    obtain ⟨p, _, hin⟩ := hr
    rcases hin with ⟨s, _, hs⟩ | ⟨sp, _, s, _, hs⟩
    · exact (sentReq_some hs).2
    · exact (sentReq_some hs).2
  · intro tr htr
    simp only [extract_requirements, List.mem_flatMap, List.mem_append,
      List.mem_filterMap] at htr
    obtain ⟨p, _, hin⟩ := htr
    rcases hin with ⟨s, _, hs⟩ | ⟨sp, _, s, _, hs⟩
    · exact (sentTimeReq_some hs).2
    · exact (sentTimeReq_some hs).2

/-- C1: for a sentence delivered by the external segmenter for a paragraph
or subparagraph of the article, a Requirement with the sentence's stripped
text is stored iff the obligation or right flag holds of it, and a
TimeRequirement with that text exists iff additionally the time flag holds;
in particular a time-only sentence produces neither record. -/
theorem extract_requirements_keyword_gate (seg : String → List String) (art : RArticle)
    (p : Paragraph) (s : String) (hp : p ∈ art.paragraphs)
    (hs : s ∈ seg p.text ∨ ∃ sp ∈ p.subparagraphs, s ∈ seg sp.text) :
    ((∃ r ∈ (extract_requirements seg art).1, r.text = pyStripStr s) ↔
      (isObligationSent (pyStripStr s) || isRightSent (pyStripStr s)) = true) ∧
    ((∃ tr ∈ (extract_requirements seg art).2, tr.text = pyStripStr s) ↔
      ((isObligationSent (pyStripStr s) || isRightSent (pyStripStr s)) &&
        isTimeSent (pyStripStr s)) = true) := by
  have hinv := extract_requirements_flag_inv seg art
  constructor
  · constructor
    · rintro ⟨r, hr, htext⟩
      rw [← htext]
      exact hinv.1 r hr
    · intro hflag
      rcases hs with hs | ⟨sp, hsp, hs⟩
      · refine ⟨⟨p.number, none, pyStripStr s, isObligationSent (pyStripStr s),
          isRightSent (pyStripStr s), isTimeSent (pyStripStr s)⟩, ?_, rfl⟩
        simp only [extract_requirements, List.mem_flatMap]
        refine ⟨p, hp, List.mem_append.mpr (Or.inl ?_)⟩
        refine List.mem_filterMap.mpr ⟨s, hs, ?_⟩
        simp [sentReq, hflag]
      · refine ⟨⟨p.number, some sp.letter, pyStripStr s, isObligationSent (pyStripStr s),
          isRightSent (pyStripStr s), isTimeSent (pyStripStr s)⟩, ?_, rfl⟩
        simp only [extract_requirements, List.mem_flatMap]
        refine ⟨p, hp, List.mem_append.mpr (Or.inr ?_)⟩
        refine List.mem_flatMap.mpr ⟨sp, hsp, ?_⟩
        refine List.mem_filterMap.mpr ⟨s, hs, ?_⟩
        simp [sentReq, hflag]
  · constructor
    · rintro ⟨tr, htr, htext⟩
      rw [← htext]
      exact hinv.2 tr htr
    · intro hflag
      rcases hs with hs | ⟨sp, hsp, hs⟩
      · refine ⟨⟨art.number, p.number, none, pyStripStr s⟩, ?_, rfl⟩
        simp only [extract_requirements, List.mem_flatMap]
        refine ⟨p, hp, List.mem_append.mpr (Or.inl ?_)⟩
        refine List.mem_filterMap.mpr ⟨s, hs, ?_⟩
        simp [sentTimeReq, hflag]
      · refine ⟨⟨art.number, p.number, some sp.letter, pyStripStr s⟩, ?_, rfl⟩
        simp only [extract_requirements, List.mem_flatMap]
        refine ⟨p, hp, List.mem_append.mpr (Or.inr ?_)⟩
        refine List.mem_flatMap.mpr ⟨sp, hsp, ?_⟩
        refine List.mem_filterMap.mpr ⟨s, hs, ?_⟩
        simp [sentTimeReq, hflag]

/-- C1 witness: an obligation sentence that is also time-bound is stored
with a TimeRequirement, while a time-only sentence yields neither. -/
theorem extract_requirements_keyword_gate_witness :
    ((∃ r ∈ (extract_requirements oneSentSeg
        ⟨"33", "", [⟨"1", "The controller shall notify within 72 hours", []⟩]⟩).1,
        r.text = pyStripStr "The controller shall notify within 72 hours") ↔
      (isObligationSent (pyStripStr "The controller shall notify within 72 hours") ||
        isRightSent (pyStripStr "The controller shall notify within 72 hours")) = true) ∧
    ((∃ tr ∈ (extract_requirements oneSentSeg
        ⟨"33", "", [⟨"1", "The controller shall notify within 72 hours", []⟩]⟩).2,
        tr.text = pyStripStr "The controller shall notify within 72 hours") ↔
      ((isObligationSent (pyStripStr "The controller shall notify within 72 hours") ||
        isRightSent (pyStripStr "The controller shall notify within 72 hours")) &&
       isTimeSent (pyStripStr "The controller shall notify within 72 hours")) = true) :=
  extract_requirements_keyword_gate oneSentSeg
    ⟨"33", "", [⟨"1", "The controller shall notify within 72 hours", []⟩]⟩
    ⟨"1", "The controller shall notify within 72 hours", []⟩
    "The controller shall notify within 72 hours"
    (by decide) (Or.inl (by decide))

theorem addRefs_decomp (src : String) :
    ∀ (ms acc : List CrossRef), ∃ δ, addRefs src acc ms = acc ++ δ ∧
      δ.Sublist (ms.filter fun mt => !(decide (mt.article = src))) := by
  intro ms
  induction ms with
  | nil => intro acc; exact ⟨[], by simp [addRefs]⟩
  | cons m ms' ih =>
    intro acc
    by_cases h1 : m.article = src
    · obtain ⟨δ, hδ, hsub⟩ := ih acc
      refine ⟨δ, by simp only [addRefs, if_pos h1]; exact hδ, ?_⟩
      have : (List.filter (fun mt => !(decide (mt.article = src))) (m :: ms')) =
          List.filter (fun mt => !(decide (mt.article = src))) ms' := by
        simp [List.filter_cons, h1]
      rw [this]
      exact hsub
    · have hfil : (List.filter (fun mt => !(decide (mt.article = src))) (m :: ms')) =
          m :: List.filter (fun mt => !(decide (mt.article = src))) ms' := by
        simp [List.filter_cons, h1]
      by_cases h2 : m ∈ acc
      · obtain ⟨δ, hδ, hsub⟩ := ih acc
        refine ⟨δ, by simp only [addRefs, if_neg h1, if_pos h2]; exact hδ, ?_⟩
        rw [hfil]
        exact hsub.cons m
      · obtain ⟨δ, hδ, hsub⟩ := ih (acc ++ [m])
        refine ⟨m :: δ, ?_, ?_⟩
        · simp only [addRefs, if_neg h1, if_neg h2]
          rw [hδ, List.append_assoc]
          rfl
        · rw [hfil]
          exact hsub.cons₂ m

theorem addRefs_noself (src : String) :
    ∀ (ms acc : List CrossRef), (∀ r ∈ acc, r.article ≠ src) →
      ∀ r ∈ addRefs src acc ms, r.article ≠ src := by
  intro ms
  induction ms with
  | nil => intro acc hacc; simpa [addRefs] using hacc
  | cons m ms' ih =>
    intro acc hacc r hr
    by_cases h1 : m.article = src
    · rw [addRefs, if_pos h1] at hr
      exact ih acc hacc r hr
    · by_cases h2 : m ∈ acc
      · rw [addRefs, if_neg h1, if_pos h2] at hr
        exact ih acc hacc r hr
      · rw [addRefs, if_neg h1, if_neg h2] at hr
        refine ih (acc ++ [m]) ?_ r hr
        intro x hx
        rcases List.mem_append.mp hx with hx | hx
        · exact hacc x hx
        · simp only [List.mem_singleton] at hx
          subst hx
          exact h1

theorem addRefs_nodup (src : String) :
    ∀ (ms acc : List CrossRef), acc.Nodup → (addRefs src acc ms).Nodup := by
  intro ms
  induction ms with
  | nil => intro acc hacc; simpa [addRefs] using hacc
  | cons m ms' ih =>
    intro acc hacc
    by_cases h1 : m.article = src
    · rw [addRefs, if_pos h1]; exact ih acc hacc
    · by_cases h2 : m ∈ acc
      · rw [addRefs, if_neg h1, if_pos h2]; exact ih acc hacc
      · rw [addRefs, if_neg h1, if_neg h2]
        refine ih (acc ++ [m]) ?_
        simp [List.nodup_append, hacc, h2]

theorem addRefs_complete (src : String) :
    ∀ (ms acc : List CrossRef), ∀ m ∈ ms, m.article ≠ src →
      m ∈ addRefs src acc ms := by
  intro ms
  induction ms with
  | nil => intro acc m hm; cases hm
  | cons m0 ms' ih =>
    intro acc m hm hne
    rcases List.mem_cons.mp hm with he | hm'
    · subst he
      rw [addRefs, if_neg hne]
      by_cases h2 : m ∈ acc
      · rw [if_pos h2]
        obtain ⟨δ, hδ, _⟩ := addRefs_decomp src ms' acc
        rw [hδ]
        exact List.mem_append.mpr (Or.inl h2)
      · rw [if_neg h2]
        obtain ⟨δ, hδ, _⟩ := addRefs_decomp src ms' (acc ++ [m])
        rw [hδ]
        exact List.mem_append.mpr (Or.inl (List.mem_append.mpr (Or.inr (by simp))))
    · by_cases h1 : m0.article = src
      · rw [addRefs, if_pos h1]; exact ih acc m hm' hne
      · by_cases h2 : m0 ∈ acc
        · rw [addRefs, if_neg h1, if_pos h2]; exact ih acc m hm' hne
        · rw [addRefs, if_neg h1, if_neg h2]; exact ih (acc ++ [m0]) m hm' hne

theorem crossRefFold_spec (o : String → List CrossRef) :
    ∀ (arts : List CArticle) (m : String → List CrossRef) (key : String),
      (∀ r ∈ m key, r.article ≠ key) → (m key).Nodup →
      (∀ r ∈ crossRefFold o m arts key, r.article ≠ key) ∧
      (crossRefFold o m arts key).Nodup ∧
      (∃ δ, crossRefFold o m arts key = m key ++ δ ∧
        δ.Sublist ((arts.filter fun a => decide (a.number = key)).flatMap
          fun a => (o a.content).filter fun mt => !(decide (mt.article = key)))) ∧
      (∀ a ∈ arts, a.number = key → ∀ mt ∈ o a.content, mt.article ≠ key →
        mt ∈ crossRefFold o m arts key) := by
  intro arts
  induction arts with
  | nil =>
    intro m key h1 h2
    exact ⟨h1, h2, ⟨[], by simp [crossRefFold]⟩, fun a ha => by cases ha⟩
  | cons a rest ih =>
    intro m key h1 h2
    by_cases hk : key = a.number
    · have hnum : a.number = key := hk.symm
      have hstep : crossRefFold o m (a :: rest) =
          crossRefFold o
            (fun k => if k = a.number then addRefs a.number (m a.number) (o a.content)
              else m k) rest := rfl
      set m' : String → List CrossRef :=
        fun k => if k = a.number then addRefs a.number (m a.number) (o a.content) else m k with hm'
      have hm'key : m' key = addRefs key (m key) (o a.content) := by
        simp only [hm']
        rw [if_pos hk, ← hk]
      have h1' : ∀ r ∈ m' key, r.article ≠ key := by
        rw [hm'key]
        exact addRefs_noself key (o a.content) (m key) h1
      have h2' : (m' key).Nodup := by
        rw [hm'key]
        exact addRefs_nodup key (o a.content) (m key) h2
      obtain ⟨ihs, ihn, ⟨δ₁, hδ₁, hsub₁⟩, ihc⟩ := ih m' key h1' h2'
      obtain ⟨δ₀, hδ₀, hsub₀⟩ := addRefs_decomp key (o a.content) (m key)
      rw [hstep]
      refine ⟨ihs, ihn, ⟨δ₀ ++ δ₁, ?_, ?_⟩, ?_⟩
      · rw [hδ₁, hm'key, hδ₀, List.append_assoc]
      · have hfil : (a :: rest).filter (fun x => decide (x.number = key)) =
            a :: rest.filter (fun x => decide (x.number = key)) := by
          simp [List.filter_cons, hnum]
        rw [hfil, List.flatMap_cons]
        exact List.Sublist.append hsub₀ hsub₁
      · intro x hx hxnum mt hmt hmtne
        rcases List.mem_cons.mp hx with he | hx'
        · subst he
          have hmem : mt ∈ m' key := by
            rw [hm'key]
            exact addRefs_complete key (o x.content) (m key) mt hmt hmtne
          rw [hδ₁]
          exact List.mem_append.mpr (Or.inl hmem)
        · exact ihc x hx' hxnum mt hmt hmtne
    · have hstep : crossRefFold o m (a :: rest) =
          crossRefFold o
            (fun k => if k = a.number then addRefs a.number (m a.number) (o a.content)
              else m k) rest := rfl
      set m' : String → List CrossRef :=
        fun k => if k = a.number then addRefs a.number (m a.number) (o a.content) else m k with hm'
      have hm'key : m' key = m key := by
        simp [hm', hk]
      obtain ⟨ihs, ihn, ⟨δ₁, hδ₁, hsub₁⟩, ihc⟩ := ih m' key (by rw [hm'key]; exact h1)
        (by rw [hm'key]; exact h2)
      rw [hstep]
      refine ⟨ihs, ihn, ⟨δ₁, by rw [hδ₁, hm'key], ?_⟩, ?_⟩
      · have hfil : (a :: rest).filter (fun x => decide (x.number = key)) =
            rest.filter (fun x => decide (x.number = key)) := by
          have : ¬(a.number = key) := fun h => hk h.symm
          simp [List.filter_cons, this]
        rw [hfil]
        exact hsub₁
      · intro x hx hxnum mt hmt hmtne
        rcases List.mem_cons.mp hx with he | hx'
        · subst he
          exact absurd hxnum.symm hk
        · exact ihc x hx' hxnum mt hmt hmtne

/-- C7: for every match oracle, article list and source article number,
the emitted reference list for that source contains no self-reference, is
duplicate-free by the (target article, target paragraph) pair (the record
is that pair), is in first-seen order — a sublist of the concatenated
stream of non-self matches of that source's articles — and contains every
non-self match of the stream. -/
theorem extract_cross_references_spec (o : String → List CrossRef)
    (articles : List CArticle) (key : String) :
    (∀ r ∈ extract_cross_references o articles key, r.article ≠ key) ∧
    (extract_cross_references o articles key).Nodup ∧
    (extract_cross_references o articles key).Sublist
      ((articles.filter fun a => decide (a.number = key)).flatMap
        fun a => (o a.content).filter fun mt => !(decide (mt.article = key))) ∧
    (∀ a ∈ articles, a.number = key → ∀ mt ∈ o a.content, mt.article ≠ key →
      mt ∈ extract_cross_references o articles key) := by
  obtain ⟨h1, h2, ⟨δ, hδ, hsub⟩, h4⟩ :=
    crossRefFold_spec o articles (fun _ => []) key (by simp) (by simp)
  refine ⟨h1, h2, ?_, h4⟩
  have : extract_cross_references o articles key = δ := by
    rw [extract_cross_references, hδ]
    rfl
  rw [this]
  exact hsub

/-- C7 witness: a source article "5" whose content mentions Article 6(1)
twice and itself once emits exactly one edge, to article 6 paragraph 1. -/
theorem extract_cross_references_spec_witness :
    extract_cross_references witnessRefOracle [⟨"5", "c"⟩] "5" = [⟨"6", some "1"⟩] ∧
      (∀ r ∈ extract_cross_references witnessRefOracle [⟨"5", "c"⟩] "5",
        r.article ≠ "5") ∧
      (extract_cross_references witnessRefOracle [⟨"5", "c"⟩] "5").Nodup ∧
      (⟨"6", some "1"⟩ : CrossRef) ∈ extract_cross_references witnessRefOracle [⟨"5", "c"⟩] "5" :=
  ⟨by decide,
   (extract_cross_references_spec witnessRefOracle [⟨"5", "c"⟩] "5").1,
   (extract_cross_references_spec witnessRefOracle [⟨"5", "c"⟩] "5").2.1,
   (extract_cross_references_spec witnessRefOracle [⟨"5", "c"⟩] "5").2.2.2
     ⟨"5", "c"⟩ (by decide) (by decide) ⟨"6", some "1"⟩ (by decide) (by decide)⟩

theorem lexLe_total : ∀ a b : List Char, lexLe a b = true ∨ lexLe b a = true := by
  intro a
  induction a with
  | nil => intro b; exact Or.inl rfl
  | cons x xs ih =>
    intro b
    cases b with
    | nil => exact Or.inr rfl
    | cons y ys =>
      by_cases h1 : x.toNat < y.toNat
      · left
        simp [lexLe, h1]
      · by_cases h2 : y.toNat < x.toNat
        · right
          simp [lexLe, h2]
        · rcases ih ys with h | h
          · left; simp [lexLe, h1, h2, h]
          · right; simp [lexLe, h1, h2, h]

theorem lexLe_trans : ∀ a b c : List Char,
    lexLe a b = true → lexLe b c = true → lexLe a c = true := by
  intro a
  induction a with
  | nil => intro b c _ _; rfl
  | cons x xs ih =>
    intro b c hab hbc
    cases b with
    | nil => simp [lexLe] at hab
    | cons y ys =>
      cases c with
      | nil => simp [lexLe] at hbc
      | cons z zs =>
        by_cases hxy : x.toNat < y.toNat
        · have hyz : y.toNat ≤ z.toNat := by
            by_contra hlt
            push_neg at hlt
            have hnlt : ¬ y.toNat < z.toNat := by omega
            simp [lexLe, hnlt, hlt] at hbc
          have hxz : x.toNat < z.toNat := lt_of_lt_of_le hxy hyz
          simp [lexLe, hxz]
        · by_cases hyx : y.toNat < x.toNat
          · simp [lexLe, hxy, hyx] at hab
          · have hexy : x.toNat = y.toNat := by omega
            by_cases hyz : y.toNat < z.toNat
            · have hxz : x.toNat < z.toNat := by omega
              simp [lexLe, hxz]
            · by_cases hzy : z.toNat < y.toNat
              · simp [lexLe, hyz, hzy] at hbc
              · have hxz : ¬ x.toNat < z.toNat := by omega
                have hzx : ¬ z.toNat < x.toNat := by omega
                simp only [lexLe, if_neg hxy, if_neg hyx] at hab
                simp only [lexLe, if_neg hyz, if_neg hzy] at hbc
                simp only [lexLe, if_neg hxz, if_neg hzx]
                exact ih ys zs hab hbc

theorem sortByKey_sorted {α : Type} (key : α → String) (l : List α) :
    (sortByKey key l).Pairwise fun x y => strLe (key x) (key y) = true := by
  haveI : IsTotal α (fun x y => strLe (key x) (key y) = true) :=
    ⟨fun x y => lexLe_total (key x).data (key y).data⟩
  haveI : IsTrans α (fun x y => strLe (key x) (key y) = true) :=
    ⟨fun x y z => lexLe_trans (key x).data (key y).data (key z).data⟩
  exact List.sorted_insertionSort _ l

theorem sortByKey_perm {α : Type} (key : α → String) (l : List α) :
    (sortByKey key l).Perm l :=
  List.perm_insertionSort _ l

theorem buildSubsubTs_sorted_perm (db : Database) (spid : Nat) :
    (buildSubsubTs db spid).Pairwise (fun x y => strLe x.number y.number = true) ∧
      ((buildSubsubTs db spid).map fun q => (q.id, q.number, q.text)).Perm
        ((db.subsubparagraphs.filter fun r => r.subparagraphId = spid).map
          fun r => (r.id, r.number, r.text)) := by
  constructor
  · rw [buildSubsubTs, List.pairwise_map]
    exact sortByKey_sorted _ _
  · rw [buildSubsubTs, List.map_map]
    exact (sortByKey_perm _ _).map _

theorem buildSubTs_sorted_perm (db : Database) (pid : Nat) :
    (buildSubTs db pid).Pairwise (fun x y => strLe x.letter y.letter = true) ∧
      ((buildSubTs db pid).map fun sp => (sp.id, sp.letter, sp.text)).Perm
        ((db.subparagraphs.filter fun r => r.paragraphId = pid).map
          fun r => (r.id, r.letter, r.text)) := by
  constructor
  · rw [buildSubTs, List.pairwise_map]
    exact sortByKey_sorted _ _
  · rw [buildSubTs, List.map_map]
    exact (sortByKey_perm _ _).map _

theorem buildParaTs_sorted_perm (db : Database) (aid : Nat) :
    (buildParaTs db aid).Pairwise (fun x y => strLe x.number y.number = true) ∧
      ((buildParaTs db aid).map fun p => (p.id, p.number, p.text)).Perm
        ((db.paragraphs.filter fun r => r.articleId = aid).map
          fun r => (r.id, r.number, r.text)) := by
  constructor
  · rw [buildParaTs, List.pairwise_map]
    exact sortByKey_sorted _ _
  · rw [buildParaTs, List.map_map]
    exact (sortByKey_perm _ _).map _

/-- C4: a reconstructed article's paragraphs are a permutation of its
stored paragraph rows ordered by the stored number as a lexicographic
string, each paragraph's subparagraphs are its rows ordered
lexicographically by letter, each subparagraph's sub-subparagraphs are its
rows ordered lexicographically by roman-numeral text, and the article
carries its requirements, entities and outgoing cross-references. -/
theorem get_article_by_number_spec (db : Database) (n : String) (t : ArticleT)
    (h : get_article_by_number db n = some t) :
    t.paragraphs.Pairwise (fun x y => strLe x.number y.number = true) ∧
    (t.paragraphs.map fun p => (p.id, p.number, p.text)).Perm
      ((db.paragraphs.filter fun r => r.articleId = t.id).map
        fun r => (r.id, r.number, r.text)) ∧
    (∀ p ∈ t.paragraphs,
      p.subparagraphs.Pairwise (fun x y => strLe x.letter y.letter = true) ∧
      (p.subparagraphs.map fun sp => (sp.id, sp.letter, sp.text)).Perm
        ((db.subparagraphs.filter fun r => r.paragraphId = p.id).map
          fun r => (r.id, r.letter, r.text)) ∧
      ∀ sp ∈ p.subparagraphs,
        sp.subsubparagraphs.Pairwise (fun x y => strLe x.number y.number = true) ∧
        (sp.subsubparagraphs.map fun q => (q.id, q.number, q.text)).Perm
          ((db.subsubparagraphs.filter fun r => r.subparagraphId = sp.id).map
            fun r => (r.id, r.number, r.text))) ∧
    t.requirements = buildReqTs db t.id ∧
    t.entities = buildEntTs db t.id ∧
    t.cross_references = buildRefTs db t.id := by
  rw [get_article_by_number] at h
  cases hf : db.articles.find? fun a => a.number = n with
  | none => rw [hf] at h; cases h
  | some a =>
    rw [hf] at h
    injection h with h'
    subst h'
    refine ⟨(buildParaTs_sorted_perm db a.id).1, (buildParaTs_sorted_perm db a.id).2,
      ?_, rfl, rfl, rfl⟩
    intro p hp
    simp only [buildParaTs, List.mem_map] at hp
    obtain ⟨r, _, hr⟩ := hp
    subst hr
    refine ⟨(buildSubTs_sorted_perm db r.id).1, (buildSubTs_sorted_perm db r.id).2, ?_⟩
    intro sp hsp
    simp only [buildSubTs, List.mem_map] at hsp
    obtain ⟨q, _, hq⟩ := hsp
    subst hq
    exact buildSubsubTs_sorted_perm db q.id

/-- C4 witness: paragraph "10" sorts before paragraph "2", and the
reconstructed list is a permutation of the stored rows. -/
theorem get_article_by_number_spec_witness :
    ((get_article_by_number lexDemoDb "7").map fun t =>
        t.paragraphs.map fun p => p.number) = some ["10", "2"] ∧
    strLe "10" "2" = true ∧
    ((⟨1, "7", "T", "c", none, none, [⟨2, "10", "ten", []⟩, ⟨1, "2", "two", []⟩],
        [], [], []⟩ : ArticleT).paragraphs.Pairwise
      (fun x y => strLe x.number y.number = true) ∧
      ((⟨1, "7", "T", "c", none, none, [⟨2, "10", "ten", []⟩, ⟨1, "2", "two", []⟩],
        [], [], []⟩ : ArticleT).paragraphs.map fun p => (p.id, p.number, p.text)).Perm
        ((lexDemoDb.paragraphs.filter fun r =>
          r.articleId = (⟨1, "7", "T", "c", none, none,
            [⟨2, "10", "ten", []⟩, ⟨1, "2", "two", []⟩], [], [], []⟩ : ArticleT).id).map
          fun r => (r.id, r.number, r.text))) :=
  ⟨by decide, by decide,
   (get_article_by_number_spec lexDemoDb "7"
      ⟨1, "7", "T", "c", none, none, [⟨2, "10", "ten", []⟩, ⟨1, "2", "two", []⟩],
        [], [], []⟩ (by decide)).1,
   (get_article_by_number_spec lexDemoDb "7"
      ⟨1, "7", "T", "c", none, none, [⟨2, "10", "ten", []⟩, ⟨1, "2", "two", []⟩],
        [], [], []⟩ (by decide)).2.1⟩

theorem exportSubsubTs_eq (db : Database) (spid : Nat) :
    exportSubsubTs db spid = (buildSubsubTs db spid).map stripSubsub := by
  simp only [exportSubsubTs, buildSubsubTs, List.map_map]
  rfl

theorem exportSubTs_eq (db : Database) (pid : Nat) :
    exportSubTs db pid = (buildSubTs db pid).map stripSub := by
  simp only [exportSubTs, buildSubTs, List.map_map]
  refine List.map_congr_left ?_
  intro r _
  rw [exportSubsubTs_eq]
  rfl

theorem exportParaTs_eq (db : Database) (aid : Nat) :
    exportParaTs db aid = (buildParaTs db aid).map stripPara := by
  simp only [exportParaTs, buildParaTs, List.map_map]
  refine List.map_congr_left ?_
  intro r _
  rw [exportSubTs_eq]
  rfl

/-- C2: for every populated store and article number found by
`get_article_by_number`, the export contains an article sub-tree with that
number whose paragraph tree (numbers, texts, subparagraph letters and
texts, sub-subparagraph numbers and texts, in order) is exactly the
id-stripped tree returned by `get_article_by_number`. -/
theorem export_to_json_matches_get (db : Database) (n : String) (t : ArticleT)
    (h : get_article_by_number db n = some t) :
    ∃ e ∈ export_to_json_articles db, e.number = n ∧
      e.paragraphs = t.paragraphs.map stripPara := by
  rw [get_article_by_number] at h
  cases hf : db.articles.find? fun a => a.number = n with
  | none => rw [hf] at h; cases h
  | some a =>
    rw [hf] at h
    injection h with h'
    subst h'
    have hmem : a ∈ db.articles := List.mem_of_find?_eq_some hf
    have hsmem : a ∈ sortByKey (fun x => x.number) db.articles :=
      ((sortByKey_perm (fun x : ArticleRow => x.number) db.articles).mem_iff).mpr hmem
    have hnum : a.number = n := by
      have := List.find?_some hf
      simpa using this
    refine ⟨⟨a.number, a.title, a.content, chapterTagOf db a.chapterId,
      sectionTagOf db a.sectionId, exportParaTs db a.id, exportReqTs db a.id⟩, ?_, hnum, ?_⟩
    · rw [export_to_json_articles]
      exact List.mem_map.mpr ⟨a, hsmem, rfl⟩
    · exact exportParaTs_eq db a.id

/-- C2 witness: on the two-paragraph demo store, the export's sub-tree for
article "7" coincides with the id-stripped `get_article_by_number` tree. -/
theorem export_to_json_matches_get_witness :
    ∃ e ∈ export_to_json_articles lexDemoDb, e.number = "7" ∧
      e.paragraphs = (⟨1, "7", "T", "c", none, none,
        [⟨2, "10", "ten", []⟩, ⟨1, "2", "two", []⟩], [], [], []⟩ :
          ArticleT).paragraphs.map stripPara :=
  export_to_json_matches_get lexDemoDb "7"
    ⟨1, "7", "T", "c", none, none, [⟨2, "10", "ten", []⟩, ⟨1, "2", "two", []⟩],
      [], [], []⟩ (by decide)

theorem findSub_spec (pat : List Char) :
    ∀ (l : List Char) (i : Nat), findSub pat l = some i →
      isPrefList pat (l.drop i) = true ∧
        ∀ j < i, isPrefList pat (l.drop j) = false := by
  intro l
  induction l with
  | nil =>
    intro i h
    rw [findSub] at h
    by_cases hp : isPrefList pat [] = true
    · rw [if_pos hp] at h
      injection h with h'
      subst h'
      exact ⟨hp, fun j hj => absurd hj (Nat.not_lt_zero j)⟩
    · rw [if_neg hp] at h
      cases h
  | cons c cs ih =>
    intro i h
    rw [findSub] at h
    by_cases hp : isPrefList pat (c :: cs) = true
    · rw [if_pos hp] at h
      injection h with h'
      subst h'
      exact ⟨hp, fun j hj => absurd hj (Nat.not_lt_zero j)⟩
    · rw [if_neg hp] at h
      cases hc : findSub pat cs with
      | none => rw [hc] at h; cases h
      | some i' =>
        rw [hc] at h
        injection h with h'
        subst h'
        obtain ⟨h1, h2⟩ := ih i' hc
        refine ⟨by simpa using h1, ?_⟩
        intro j hj
        cases j with
        | zero =>
          simp only [List.drop_zero]
          cases hq : isPrefList pat (c :: cs) with
          | false => rfl
          | true => exact absurd hq hp
        | succ j' =>
          have hj' : j' < i' := Nat.lt_of_succ_lt_succ hj
          simpa using h2 j' hj'

/-- C8: when the paragraph text contains the keyword, the snippet is built
around the first (leftmost) occurrence `pos` of the lowercased keyword:
it is the window `[pos-50, pos+|kw|+50)` clipped to the text, with a
leading ellipsis exactly when the clipped window start `pos-50` is
positive (does not start at offset 0) and a trailing ellipsis exactly when
the clipped window end is below the text length (does not reach the end). -/
theorem search_snippet_spec (text kw : String) (pos : Nat)
    (h : findSub (lowerChars kw.data) (lowerChars text.data) = some pos) :
    (isPrefList (lowerChars kw.data) ((lowerChars text.data).drop pos) = true ∧
      ∀ j < pos, isPrefList (lowerChars kw.data) ((lowerChars text.data).drop j) = false) ∧
    search_snippet text kw = some (String.mk
      ((if 0 < pos - 50 then dots else []) ++
        ((text.data.drop (pos - 50)).take
          (min text.data.length (pos + kw.data.length + 50) - (pos - 50))) ++
        (if min text.data.length (pos + kw.data.length + 50) <
            text.data.length then dots else []))) ∧
    (0 < pos - 50 ↔ pos - 50 ≠ 0) ∧
    (min text.data.length (pos + kw.data.length + 50) < text.data.length ↔
      min text.data.length (pos + kw.data.length + 50) ≠ text.data.length) := by
  refine ⟨findSub_spec _ _ _ h, ?_, Nat.pos_iff_ne_zero, ?_⟩
  · rw [search_snippet, h]
    rfl
  · constructor
    · exact Nat.ne_of_lt
    · intro hne
      exact Nat.lt_of_le_of_ne (Nat.min_le_left _ _) hne

set_option maxRecDepth 4000 in
/-- C8 witness: for the 200-character text with the keyword at offset 10,
the window starts at offset 0 (no leading ellipsis: `10 - 50 = 0`) and
stops at 63 < 200 (trailing ellipsis). -/
theorem search_snippet_spec_witness :
    (¬ 0 < 10 - 50) ∧
    (min snippetDemoText.data.length (10 + "key".data.length + 50) <
      snippetDemoText.data.length) ∧
    search_snippet snippetDemoText "key" = some (String.mk
      ((if 0 < 10 - 50 then dots else []) ++
        ((snippetDemoText.data.drop (10 - 50)).take
          (min snippetDemoText.data.length (10 + "key".data.length + 50) - (10 - 50))) ++
        (if min snippetDemoText.data.length (10 + "key".data.length + 50) <
            snippetDemoText.data.length then dots else []))) :=
  ⟨by decide, by decide,
   (search_snippet_spec snippetDemoText "key" 10 (by decide)).2.1⟩

theorem extends_refl (s : DBState) : Extends s s :=
  ⟨rfl, [], by simp⟩

theorem extends_trans {a b c : DBState} (h1 : Extends a b) (h2 : Extends b c) :
    Extends a c := by
  obtain ⟨hc1, δ1, hp1⟩ := h1
  obtain ⟨hc2, δ2, hp2⟩ := h2
  exact ⟨hc2.trans hc1, δ1 ++ δ2, by rw [hp2, hp1, List.append_assoc]⟩

theorem mem_pending_of_extends {s s' : DBState} {x : Nat × Row}
    (h : Extends s s') (hx : x ∈ s.pending) : x ∈ s'.pending := by
  obtain ⟨_, δ, hp⟩ := h
  rw [hp]
  exact List.mem_append.mpr (Or.inl hx)

theorem executeInsert_error {o : Nat → Bool} {r : Row} {s s' : DBState}
    (h : executeInsert o r s = .error s') : Extends s s' := by
  rw [executeInsert] at h
  by_cases hc : o s.opCount = true
  · rw [if_pos hc] at h
    injection h with h'
    subst h'
    exact ⟨rfl, [], by simp⟩
  · rw [if_neg hc] at h
    cases h

theorem executeInsert_ok {o : Nat → Bool} {r : Row} {s : DBState} {i : Nat}
    {s' : DBState} (h : executeInsert o r s = .ok (i, s')) :
    Extends s s' ∧ (i, r) ∈ s'.pending := by
  rw [executeInsert] at h
  by_cases hc : o s.opCount = true
  · rw [if_pos hc] at h
    cases h
  · rw [if_neg hc] at h
    injection h with h'
    injection h' with hi hs
    subst hi
    subst hs
    exact ⟨⟨rfl, [(s.nextId, r)], rfl⟩, by simp⟩

theorem foldInserts_extends {α β : Type}
    {step : α → DBState → β → Except DBState (β × DBState)} (h : StepSpec step) :
    ∀ (l : List α) (s : DBState) (acc : β),
      (∀ s', foldInserts step l s acc = .error s' → Extends s s') ∧
      (∀ acc' s', foldInserts step l s acc = .ok (acc', s') → Extends s s') := by
  intro l
  induction l with
  | nil =>
    intro s acc
    constructor
    · intro s' he
      rw [foldInserts] at he
      cases he
    · intro acc' s' hk
      rw [foldInserts] at hk
      injection hk with h'
      injection h' with h1 h2
      subst h2
      exact extends_refl s
  | cons x rest ih =>
    intro s acc
    constructor
    · intro s' he
      rw [foldInserts] at he
      cases hstep : step x s acc with
      | error s₀ =>
        rw [hstep] at he
        injection he with h'
        subst h'
        exact (h x s acc).1 s₀ hstep
      | ok p =>
        obtain ⟨acc₀, s₀⟩ := p
        rw [hstep] at he
        exact extends_trans ((h x s acc).2 acc₀ s₀ hstep) ((ih s₀ acc₀).1 s' he)
    · intro acc' s' hk
      rw [foldInserts] at hk
      cases hstep : step x s acc with
      | error s₀ =>
        rw [hstep] at hk
        cases hk
      | ok p =>
        obtain ⟨acc₀, s₀⟩ := p
        rw [hstep] at hk
        exact extends_trans ((h x s acc).2 acc₀ s₀ hstep) ((ih s₀ acc₀).2 acc' s' hk)

theorem foldInserts_mem {α β : Type}
    {step : α → DBState → β → Except DBState (β × DBState)} (hspec : StepSpec step)
    (P : α → DBState → Prop)
    (hmono : ∀ x s s', Extends s s' → P x s → P x s')
    (hP : ∀ x s acc acc' s', step x s acc = .ok (acc', s') → P x s') :
    ∀ (l : List α) (s : DBState) (acc : β) (acc' : β) (s' : DBState),
      foldInserts step l s acc = .ok (acc', s') → ∀ x ∈ l, P x s' := by
  intro l
  induction l with
  | nil =>
    intro s acc acc' s' _ x hx
    cases hx
  | cons y rest ih =>
    intro s acc acc' s' hk x hx
    rw [foldInserts] at hk
    cases hstep : step y s acc with
    | error s₀ =>
      rw [hstep] at hk
      cases hk
    | ok p =>
      obtain ⟨acc₀, s₀⟩ := p
      rw [hstep] at hk
      rcases List.mem_cons.mp hx with he | hrest
      · subst he
        exact hmono x s₀ s' ((foldInserts_extends hspec rest s₀ acc₀).2 acc' s' hk)
          (hP x s acc acc₀ s₀ hstep)
      · exact ih s₀ acc₀ acc' s' hk x hrest

/-- The step specification of every loop whose body is a single insert,
the row depending only on the loop element. -/
theorem simpleStep_spec {α β : Type} (o : Nat → Bool) (row : α → Row)
    (upd : α → Nat → β → β) :
    StepSpec (simpleInsertStep (β := β) o row upd) := by
  intro x s acc
  simp only [simpleInsertStep]
  constructor
  · intro s' h
    cases he : executeInsert o (row x) s with
    | error s₁ =>
      simp only [he] at h
      injection h with h'
      subst h'
      exact executeInsert_error he
    | ok p =>
      obtain ⟨i, s₁⟩ := p
      simp only [he] at h
      cases h
  · intro acc' s' h
    cases he : executeInsert o (row x) s with
    | error s₁ =>
      simp only [he] at h
      cases h
    | ok p =>
      obtain ⟨i, s₁⟩ := p
      simp only [he] at h
      injection h with h'
      injection h' with h1 h2
      subst h2
      exact (executeInsert_ok he).1

/-- Each single-insert loop step leaves its row in the pending
transaction on success. -/
theorem simpleStep_mem {α β : Type} (o : Nat → Bool) (row : α → Row)
    (upd : α → Nat → β → β) :
    ∀ (x : α) (s : DBState) (acc acc' : β) (s' : DBState),
      simpleInsertStep o row upd x s acc = .ok (acc', s') →
      ∃ id, (id, row x) ∈ s'.pending := by
  intro x s acc acc' s' h
  simp only [simpleInsertStep] at h
  cases he : executeInsert o (row x) s with
  | error s₁ =>
    simp only [he] at h
    cases h
  | ok p =>
    obtain ⟨i, s₁⟩ := p
    simp only [he] at h
    injection h with h'
    injection h' with h1 h2
    subst h2
    exact ⟨i, (executeInsert_ok he).2⟩

/-- The step specification of a loop whose body first resolves an optional
id (skipping the insert when it is absent). -/
theorem skipStep_spec {α β : Type} (o : Nat → Bool) (g : α → Option Nat)
    (row : α → Nat → Row) :
    StepSpec (skipInsertStep (β := β) o g row) := by
  intro x s acc
  simp only [skipInsertStep]
  constructor
  · intro s' h
    cases hg : g x with
    | none =>
      simp only [hg] at h
      cases h
    | some v =>
      simp only [hg] at h
      cases he : executeInsert o (row x v) s with
      | error s₁ =>
        simp only [he] at h
        injection h with h'
        subst h'
        exact executeInsert_error he
      | ok p =>
        obtain ⟨i, s₁⟩ := p
        simp only [he] at h
        cases h
  · intro acc' s' h
    cases hg : g x with
    | none =>
      simp only [hg] at h
      injection h with h'
      injection h' with h1 h2
      subst h2
      exact extends_refl s
    | some v =>
      simp only [hg] at h
      cases he : executeInsert o (row x v) s with
      | error s₁ =>
        simp only [he] at h
        cases h
      | ok p =>
        obtain ⟨i, s₁⟩ := p
        simp only [he] at h
        injection h with h'
        injection h' with h1 h2
        subst h2
        exact (executeInsert_ok he).1

theorem insertChapters_extends (o : Nat → Bool) (chs : List (String × String))
    (s : DBState) :
    (∀ s', insertChapters o chs s = .error s' → Extends s s') ∧
    (∀ m' s', insertChapters o chs s = .ok (m', s') → Extends s s') := by
  unfold insertChapters
  exact foldInserts_extends (simpleStep_spec o (fun c => Row.chapter c.1 c.2)
    (fun c cid m => (c.1, cid) :: m)) chs s []

theorem insertSections_extends (o : Nat → Bool) (arts : List MArticle) (chMap : SMap)
    (secs : List (String × String)) (s : DBState) :
    (∀ s', insertSections o arts chMap secs s = .error s' → Extends s s') ∧
    (∀ m' s', insertSections o arts chMap secs s = .ok (m', s') → Extends s s') := by
  unfold insertSections
  exact foldInserts_extends (simpleStep_spec o
    (fun sec => Row.sect (sectionChapterId arts chMap sec.1) sec.1 sec.2)
    (fun sec sid m => (sec.1, sid) :: m)) secs s []

theorem insertRecitals_extends (o : Nat → Bool) (recs : List (String × String))
    (s : DBState) :
    (∀ s', insertRecitals o recs s = .error s' → Extends s s') ∧
    (∀ u s', insertRecitals o recs s = .ok (u, s') → Extends s s') := by
  unfold insertRecitals
  exact foldInserts_extends (simpleStep_spec o (fun rc => Row.recital rc.1 rc.2)
    (fun _ _ _ => ())) recs s ()

theorem insertSubsubs_extends (o : Nat → Bool) (spid : Nat)
    (qs : List Subsubparagraph) (s : DBState) :
    (∀ s', insertSubsubs o spid qs s = .error s' → Extends s s') ∧
    (∀ u s', insertSubsubs o spid qs s = .ok (u, s') → Extends s s') := by
  unfold insertSubsubs
  exact foldInserts_extends (simpleStep_spec o
    (fun q => Row.subsubparagraph spid q.number q.text) (fun _ _ _ => ())) qs s ()

theorem subparaStep_spec (o : Nat → Bool) (artNum paraNum : String) (pid : Nat) :
    StepSpec (subparaStep o artNum paraNum pid) := by
  intro sp s sm
  simp only [subparaStep]
  constructor
  · intro s' h
    cases he : executeInsert o (.subparagraph pid sp.letter sp.text) s with
    | error s₁ =>
      simp only [he] at h
      injection h with h'
      subst h'
      exact executeInsert_error he
    | ok p =>
      obtain ⟨spid, s₁⟩ := p
      simp only [he] at h
      cases hs : insertSubsubs o spid sp.subsubparagraphs s₁ with
      | error s₂ =>
        simp only [hs] at h
        injection h with h'
        subst h'
        exact extends_trans (executeInsert_ok he).1
          ((insertSubsubs_extends o spid sp.subsubparagraphs s₁).1 s₂ hs)
      | ok p₂ =>
        obtain ⟨u, s₂⟩ := p₂
        simp only [hs] at h
        cases h
  · intro sm' s' h
    cases he : executeInsert o (.subparagraph pid sp.letter sp.text) s with
    | error s₁ =>
      simp only [he] at h
      cases h
    | ok p =>
      obtain ⟨spid, s₁⟩ := p
      simp only [he] at h
      cases hs : insertSubsubs o spid sp.subsubparagraphs s₁ with
      | error s₂ =>
        simp only [hs] at h
        cases h
      | ok p₂ =>
        obtain ⟨u, s₂⟩ := p₂
        simp only [hs] at h
        injection h with h'
        injection h' with h1 h2
        subst h2
        exact extends_trans (executeInsert_ok he).1
          ((insertSubsubs_extends o spid sp.subsubparagraphs s₁).2 u s₂ hs)

theorem insertSubparas_extends (o : Nat → Bool) (artNum paraNum : String)
    (pid : Nat) (sps : List Subparagraph) (s : DBState) (sm : SubMap) :
    (∀ s', insertSubparas o artNum paraNum pid sps s sm = .error s' → Extends s s') ∧
    (∀ sm' s', insertSubparas o artNum paraNum pid sps s sm = .ok (sm', s') →
      Extends s s') := by
  unfold insertSubparas
  exact foldInserts_extends (subparaStep_spec o artNum paraNum pid) sps s sm

theorem paraStep_spec (o : Nat → Bool) (artNum : String) (aid : Nat) :
    StepSpec (paraStep o artNum aid) := by
  intro p s acc
  simp only [paraStep]
  constructor
  · intro s' h
    cases he : executeInsert o (.paragraph aid p.number p.text) s with
    | error s₁ =>
      simp only [he] at h
      injection h with h'
      subst h'
      exact executeInsert_error he
    | ok pr =>
      obtain ⟨pid, s₁⟩ := pr
      simp only [he] at h
      cases hs : insertSubparas o artNum p.number pid p.subparagraphs s₁ acc.2 with
      | error s₂ =>
        simp only [hs] at h
        injection h with h'
        subst h'
        exact extends_trans (executeInsert_ok he).1
          ((insertSubparas_extends o artNum p.number pid p.subparagraphs s₁ acc.2).1 s₂ hs)
      | ok p₂ =>
        obtain ⟨sm', s₂⟩ := p₂
        simp only [hs] at h
        cases h
  · intro acc' s' h
    cases he : executeInsert o (.paragraph aid p.number p.text) s with
    | error s₁ =>
      simp only [he] at h
      cases h
    | ok pr =>
      obtain ⟨pid, s₁⟩ := pr
      simp only [he] at h
      cases hs : insertSubparas o artNum p.number pid p.subparagraphs s₁ acc.2 with
      | error s₂ =>
        simp only [hs] at h
        cases h
      | ok p₂ =>
        obtain ⟨sm', s₂⟩ := p₂
        simp only [hs] at h
        injection h with h'
        injection h' with h1 h2
        subst h2
        exact extends_trans (executeInsert_ok he).1
          ((insertSubparas_extends o artNum p.number pid p.subparagraphs s₁ acc.2).2 sm' s₂ hs)

theorem insertParas_extends (o : Nat → Bool) (artNum : String) (aid : Nat)
    (ps : List Paragraph) (s : DBState) (pm : ParaMap) (sm : SubMap) :
    (∀ s', insertParas o artNum aid ps s pm sm = .error s' → Extends s s') ∧
    (∀ acc' s', insertParas o artNum aid ps s pm sm = .ok (acc', s') →
      Extends s s') := by
  unfold insertParas
  exact foldInserts_extends (paraStep_spec o artNum aid) ps s (pm, sm)

theorem insertReqs_extends (o : Nat → Bool) (artNum : String) (aid : Nat)
    (pm : ParaMap) (sm : SubMap) (rs : List Requirement) (s : DBState) :
    (∀ s', insertReqs o artNum aid pm sm rs s = .error s' → Extends s s') ∧
    (∀ u s', insertReqs o artNum aid pm sm rs s = .ok (u, s') → Extends s s') := by
  unfold insertReqs
  exact foldInserts_extends (simpleStep_spec o
    (fun r => Row.requirement aid (pm.lookup (artNum, r.paragraph))
      (match r.subparagraph with
        | some letter => sm.lookup (artNum, r.paragraph, letter)
        | none => none)
      r.text r.is_obligation r.is_right r.is_time_requirement)
    (fun _ _ _ => ())) rs s ()

theorem insertEntities_extends (o : Nat → Bool) (aid : Nat) (es : List MEntity)
    (s : DBState) :
    (∀ s', insertEntities o aid es s = .error s' → Extends s s') ∧
    (∀ u s', insertEntities o aid es s = .ok (u, s') → Extends s s') := by
  unfold insertEntities
  exact foldInserts_extends (simpleStep_spec o
    (fun e => Row.entity aid e.text e.label e.startPos e.endPos)
    (fun _ _ _ => ())) es s ()

theorem articleStep_spec (o : Nat → Bool) (chMap secMap : SMap) :
    StepSpec (articleStep o chMap secMap) := by
  intro a s acc
  simp only [articleStep]
  constructor
  · intro s' h
    cases he : executeInsert o (.article a.number a.title a.content
        (a.chapterTag.bind fun t => chMap.lookup t.1)
        (a.sectionTag.bind fun t => secMap.lookup t.1)) s with
    | error s₁ =>
      simp only [he] at h
      injection h with h'
      subst h'
      exact executeInsert_error he
    | ok pr =>
      obtain ⟨aid, s₁⟩ := pr
      simp only [he] at h
      have hext1 : Extends s s₁ := (executeInsert_ok he).1
      cases hp : insertParas o a.number aid a.paragraphs s₁ acc.2.1 acc.2.2 with
      | error s₂ =>
        simp only [hp] at h
        injection h with h'
        subst h'
        exact extends_trans hext1
          ((insertParas_extends o a.number aid a.paragraphs s₁ acc.2.1 acc.2.2).1 s₂ hp)
      | ok p₂ =>
        obtain ⟨⟨pm', sm'⟩, s₂⟩ := p₂
        simp only [hp] at h
        have hext2 : Extends s₁ s₂ :=
          (insertParas_extends o a.number aid a.paragraphs s₁ acc.2.1 acc.2.2).2 _ s₂ hp
        cases hr : insertReqs o a.number aid pm' sm' a.requirements s₂ with
        | error s₃ =>
          simp only [hr] at h
          injection h with h'
          subst h'
          exact extends_trans (extends_trans hext1 hext2)
            ((insertReqs_extends o a.number aid pm' sm' a.requirements s₂).1 s₃ hr)
        | ok p₃ =>
          obtain ⟨u, s₃⟩ := p₃
          simp only [hr] at h
          have hext3 : Extends s₂ s₃ :=
            (insertReqs_extends o a.number aid pm' sm' a.requirements s₂).2 u s₃ hr
          cases hen : insertEntities o aid a.entities s₃ with
          | error s₄ =>
            simp only [hen] at h
            injection h with h'
            subst h'
            exact extends_trans (extends_trans (extends_trans hext1 hext2) hext3)
              ((insertEntities_extends o aid a.entities s₃).1 s₄ hen)
          | ok p₄ =>
            obtain ⟨u₂, s₄⟩ := p₄
            simp only [hen] at h
            cases h
  · intro acc' s' h
    cases he : executeInsert o (.article a.number a.title a.content
        (a.chapterTag.bind fun t => chMap.lookup t.1)
        (a.sectionTag.bind fun t => secMap.lookup t.1)) s with
    | error s₁ =>
      simp only [he] at h
      cases h
    | ok pr =>
      obtain ⟨aid, s₁⟩ := pr
      simp only [he] at h
      have hext1 : Extends s s₁ := (executeInsert_ok he).1
      cases hp : insertParas o a.number aid a.paragraphs s₁ acc.2.1 acc.2.2 with
      | error s₂ =>
        simp only [hp] at h
        cases h
      | ok p₂ =>
        obtain ⟨⟨pm', sm'⟩, s₂⟩ := p₂
        simp only [hp] at h
        have hext2 : Extends s₁ s₂ :=
          (insertParas_extends o a.number aid a.paragraphs s₁ acc.2.1 acc.2.2).2 _ s₂ hp
        cases hr : insertReqs o a.number aid pm' sm' a.requirements s₂ with
        | error s₃ =>
          simp only [hr] at h
          cases h
        | ok p₃ =>
          obtain ⟨u, s₃⟩ := p₃
          simp only [hr] at h
          have hext3 : Extends s₂ s₃ :=
            (insertReqs_extends o a.number aid pm' sm' a.requirements s₂).2 u s₃ hr
          cases hen : insertEntities o aid a.entities s₃ with
          | error s₄ =>
            simp only [hen] at h
            cases h
          | ok p₄ =>
            obtain ⟨u₂, s₄⟩ := p₄
            simp only [hen] at h
            injection h with h'
            injection h' with h1 h2
            subst h2
            exact extends_trans (extends_trans (extends_trans hext1 hext2) hext3)
              ((insertEntities_extends o aid a.entities s₃).2 u₂ s₄ hen)

theorem insertArticles_extends (o : Nat → Bool) (chMap secMap : SMap)
    (arts : List MArticle) (s : DBState) :
    (∀ s', insertArticles o chMap secMap arts s = .error s' → Extends s s') ∧
    (∀ acc' s', insertArticles o chMap secMap arts s = .ok (acc', s') →
      Extends s s') := by
  unfold insertArticles
  exact foldInserts_extends (articleStep_spec o chMap secMap) arts s ([], [], [])

theorem insertDefs_extends (o : Nat → Bool) (am : SMap) (pm : ParaMap) (sm : SubMap)
    (ds : List (String × MDefinition)) (s : DBState) :
    (∀ s', insertDefs o am pm sm ds s = .error s' → Extends s s') ∧
    (∀ u s', insertDefs o am pm sm ds s = .ok (u, s') → Extends s s') := by
  unfold insertDefs
  exact foldInserts_extends (simpleStep_spec o
    (fun td => Row.definition td.1 td.2.definition (am.lookup td.2.article)
      (pm.lookup (td.2.article, td.2.paragraph))
      (match td.2.subparagraph with
        | some letter => sm.lookup (td.2.article, td.2.paragraph, letter)
        | none => none))
    (fun _ _ _ => ())) ds s ()

theorem insertRefList_extends (o : Nat → Bool) (am : SMap) (fid : Nat)
    (refs : List CrossRef) (s : DBState) :
    (∀ s', insertRefList o am fid refs s = .error s' → Extends s s') ∧
    (∀ u s', insertRefList o am fid refs s = .ok (u, s') → Extends s s') := by
  unfold insertRefList
  exact foldInserts_extends (skipStep_spec o (fun ref => am.lookup ref.article)
    (fun ref tid => Row.crossReference fid tid ref.paragraph)) refs s ()

theorem crossRefStep_spec (o : Nat → Bool) (am : SMap) :
    StepSpec (crossRefStep o am) := by
  intro fr s acc
  simp only [crossRefStep]
  constructor
  · intro s' h
    cases hg : am.lookup fr.1 with
    | none =>
      simp only [hg] at h
      cases h
    | some fid =>
      simp only [hg] at h
      exact (insertRefList_extends o am fid fr.2 s).1 s' h
  · intro acc' s' h
    cases hg : am.lookup fr.1 with
    | none =>
      simp only [hg] at h
      injection h with h'
      injection h' with h1 h2
      subst h2
      exact extends_refl s
    | some fid =>
      simp only [hg] at h
      exact (insertRefList_extends o am fid fr.2 s).2 acc' s' h

theorem insertCrossRefs_extends (o : Nat → Bool) (am : SMap)
    (crs : List (String × List CrossRef)) (s : DBState) :
    (∀ s', insertCrossRefs o am crs s = .error s' → Extends s s') ∧
    (∀ u s', insertCrossRefs o am crs s = .ok (u, s') → Extends s s') := by
  unfold insertCrossRefs
  exact foldInserts_extends (crossRefStep_spec o am) crs s ()

theorem insertTimeReqs_extends (o : Nat → Bool) (am : SMap) (pm : ParaMap)
    (sm : SubMap) (ts : List TimeRequirement) (s : DBState) :
    (∀ s', insertTimeReqs o am pm sm ts s = .error s' → Extends s s') ∧
    (∀ u s', insertTimeReqs o am pm sm ts s = .ok (u, s') → Extends s s') := by
  unfold insertTimeReqs
  exact foldInserts_extends (simpleStep_spec o
    (fun t => Row.timeRequirement (am.lookup t.article)
      (pm.lookup (t.article, t.paragraph))
      (match t.subparagraph with
        | some letter => sm.lookup (t.article, t.paragraph, letter)
        | none => none) t.text)
    (fun _ _ _ => ())) ts s ()

theorem insertMentions_extends (o : Nat → Bool) (am : SMap) (actorType : String)
    (ms : List (String × String)) (s : DBState) :
    (∀ s', insertMentions o am actorType ms s = .error s' → Extends s s') ∧
    (∀ u s', insertMentions o am actorType ms s = .ok (u, s') → Extends s s') := by
  unfold insertMentions
  exact foldInserts_extends (skipStep_spec o (fun mt => am.lookup mt.1)
    (fun mt aid => Row.keyActor actorType aid mt.2)) ms s ()

theorem actorStep_spec (o : Nat → Bool) (am : SMap) :
    StepSpec (actorStep o am) := by
  intro ac s acc
  simp only [actorStep]
  exact ⟨fun s' h => (insertMentions_extends o am ac.1 ac.2 s).1 s' h,
    fun acc' s' h => (insertMentions_extends o am ac.1 ac.2 s).2 acc' s' h⟩

theorem insertActors_extends (o : Nat → Bool) (am : SMap)
    (acts : List (String × List (String × String))) (s : DBState) :
    (∀ s', insertActors o am acts s = .error s' → Extends s s') ∧
    (∀ u s', insertActors o am acts s = .ok (u, s') → Extends s s') := by
  unfold insertActors
  exact foldInserts_extends (actorStep_spec o am) acts s ()

theorem insertPolicySections_extends (o : Nat → Bool)
    (ps : List (String × String × String × String)) (s : DBState) :
    (∀ s', insertPolicySections o ps s = .error s' → Extends s s') ∧
    (∀ u s', insertPolicySections o ps s = .ok (u, s') → Extends s s') := by
  unfold insertPolicySections
  exact foldInserts_extends (simpleStep_spec o
    (fun p => Row.policySection p.1 p.2.1 p.2.2.1 p.2.2.2)
    (fun _ _ _ => ())) ps s ()

theorem rowIn_mono {r : Row} {r1 r2 : List (Nat × Row)}
    (hsub : ∀ y ∈ r1, y ∈ r2) (h : RowIn r r1) : RowIn r r2 := by
  obtain ⟨id, hm⟩ := h
  exact ⟨id, hsub _ hm⟩

theorem subparaRowsIn_mono {sp : Subparagraph} {r1 r2 : List (Nat × Row)}
    (hsub : ∀ y ∈ r1, y ∈ r2) (h : SubparaRowsIn sp r1) : SubparaRowsIn sp r2 := by
  obtain ⟨⟨pid, h1⟩, h2⟩ := h
  exact ⟨⟨pid, rowIn_mono hsub h1⟩, fun q hq => by
    obtain ⟨spid, hm⟩ := h2 q hq
    exact ⟨spid, rowIn_mono hsub hm⟩⟩

theorem paraRowsIn_mono {p : Paragraph} {r1 r2 : List (Nat × Row)}
    (hsub : ∀ y ∈ r1, y ∈ r2) (h : ParaRowsIn p r1) : ParaRowsIn p r2 := by
  obtain ⟨⟨aid, h1⟩, h2⟩ := h
  exact ⟨⟨aid, rowIn_mono hsub h1⟩, fun sp hsp => subparaRowsIn_mono hsub (h2 sp hsp)⟩

theorem articleRowsIn_mono {a : MArticle} {r1 r2 : List (Nat × Row)}
    (hsub : ∀ y ∈ r1, y ∈ r2) (h : ArticleRowsIn a r1) : ArticleRowsIn a r2 := by
  obtain ⟨⟨ch, se, h1⟩, h2, h3, h4⟩ := h
  refine ⟨⟨ch, se, rowIn_mono hsub h1⟩, fun p hp => paraRowsIn_mono hsub (h2 p hp),
    fun r hr => ?_, fun e he => ?_⟩
  · obtain ⟨aid, pid, spid, hm⟩ := h3 r hr
    exact ⟨aid, pid, spid, rowIn_mono hsub hm⟩
  · obtain ⟨aid, hm⟩ := h4 e he
    exact ⟨aid, rowIn_mono hsub hm⟩

theorem pending_sub_of_extends {s s' : DBState} (h : Extends s s') :
    ∀ y ∈ s.pending, y ∈ s'.pending :=
  fun _ hy => mem_pending_of_extends h hy

/-- Every element of a single-insert loop leaves its row pending. -/
theorem simpleFold_mem {α β : Type} (o : Nat → Bool) (row : α → Row)
    (upd : α → Nat → β → β) :
    ∀ (l : List α) (s : DBState) (acc acc' : β) (s' : DBState),
      foldInserts (simpleInsertStep o row upd) l s acc = .ok (acc', s') →
      ∀ x ∈ l, RowIn (row x) s'.pending :=
  foldInserts_mem (simpleStep_spec o row upd) (fun x s => RowIn (row x) s.pending)
    (fun _ _ _ hext hr => rowIn_mono (pending_sub_of_extends hext) hr)
    (fun x s acc acc' s' h => simpleStep_mem o row upd x s acc acc' s' h)

theorem subparaStep_mem (o : Nat → Bool) (artNum paraNum : String) (pid : Nat) :
    ∀ (sp : Subparagraph) (s : DBState) (sm sm' : SubMap) (s' : DBState),
      subparaStep o artNum paraNum pid sp s sm = .ok (sm', s') →
      SubparaRowsIn sp s'.pending := by
  intro sp s sm sm' s' h
  simp only [subparaStep] at h
  cases he : executeInsert o (.subparagraph pid sp.letter sp.text) s with
  | error s₁ =>
    simp only [he] at h
    cases h
  | ok p =>
    obtain ⟨spid, s₁⟩ := p
    simp only [he] at h
    cases hs : insertSubsubs o spid sp.subsubparagraphs s₁ with
    | error s₂ =>
      simp only [hs] at h
      cases h
    | ok p₂ =>
      obtain ⟨u, s₂⟩ := p₂
      simp only [hs] at h
      injection h with h'
      injection h' with h1 h2
      subst h2
      have hext2 : Extends s₁ s₂ :=
        (insertSubsubs_extends o spid sp.subsubparagraphs s₁).2 u s₂ hs
      constructor
      · exact ⟨pid, rowIn_mono (pending_sub_of_extends hext2)
          ⟨spid, (executeInsert_ok he).2⟩⟩
      · intro q hq
        have hs' := hs
        unfold insertSubsubs at hs'
        have := simpleFold_mem o (fun q => Row.subsubparagraph spid q.number q.text)
          (fun _ _ _ => ()) sp.subsubparagraphs s₁ () u s₂ hs' q hq
        exact ⟨spid, this⟩

theorem insertSubparas_mem (o : Nat → Bool) (artNum paraNum : String) (pid : Nat) :
    ∀ (sps : List Subparagraph) (s : DBState) (sm sm' : SubMap) (s' : DBState),
      insertSubparas o artNum paraNum pid sps s sm = .ok (sm', s') →
      ∀ sp ∈ sps, SubparaRowsIn sp s'.pending := by
  intro sps s sm sm' s' h
  exact foldInserts_mem (subparaStep_spec o artNum paraNum pid)
    (fun sp s => SubparaRowsIn sp s.pending)
    (fun _ _ _ hext hr => subparaRowsIn_mono (pending_sub_of_extends hext) hr)
    (fun sp s acc acc' s' hstep => subparaStep_mem o artNum paraNum pid sp s acc acc' s' hstep)
    sps s sm sm' s' h

theorem paraStep_mem (o : Nat → Bool) (artNum : String) (aid : Nat) :
    ∀ (p : Paragraph) (s : DBState) (acc acc' : ParaMap × SubMap) (s' : DBState),
      paraStep o artNum aid p s acc = .ok (acc', s') →
      ParaRowsIn p s'.pending := by
  intro p s acc acc' s' h
  simp only [paraStep] at h
  cases he : executeInsert o (.paragraph aid p.number p.text) s with
  | error s₁ =>
    simp only [he] at h
    cases h
  | ok pr =>
    obtain ⟨pid, s₁⟩ := pr
    simp only [he] at h
    cases hs : insertSubparas o artNum p.number pid p.subparagraphs s₁ acc.2 with
    | error s₂ =>
      simp only [hs] at h
      cases h
    | ok p₂ =>
      obtain ⟨sm', s₂⟩ := p₂
      simp only [hs] at h
      injection h with h'
      injection h' with h1 h2
      subst h2
      have hext2 : Extends s₁ s₂ :=
        (insertSubparas_extends o artNum p.number pid p.subparagraphs s₁ acc.2).2 sm' s₂ hs
      constructor
      · exact ⟨aid, rowIn_mono (pending_sub_of_extends hext2)
          ⟨pid, (executeInsert_ok he).2⟩⟩
      · exact insertSubparas_mem o artNum p.number pid p.subparagraphs s₁ acc.2 sm' s₂ hs

theorem insertParas_mem (o : Nat → Bool) (artNum : String) (aid : Nat) :
    ∀ (ps : List Paragraph) (s : DBState) (pm : ParaMap) (sm : SubMap)
      (acc' : ParaMap × SubMap) (s' : DBState),
      insertParas o artNum aid ps s pm sm = .ok (acc', s') →
      ∀ p ∈ ps, ParaRowsIn p s'.pending := by
  intro ps s pm sm acc' s' h
  exact foldInserts_mem (paraStep_spec o artNum aid)
    (fun p s => ParaRowsIn p s.pending)
    (fun _ _ _ hext hr => paraRowsIn_mono (pending_sub_of_extends hext) hr)
    (fun p s acc acc' s' hstep => paraStep_mem o artNum aid p s acc acc' s' hstep)
    ps s (pm, sm) acc' s' h

theorem articleStep_mem (o : Nat → Bool) (chMap secMap : SMap) :
    ∀ (a : MArticle) (s : DBState) (acc acc' : SMap × ParaMap × SubMap) (s' : DBState),
      articleStep o chMap secMap a s acc = .ok (acc', s') →
      ArticleRowsIn a s'.pending := by
  intro a s acc acc' s' h
  simp only [articleStep] at h
  cases he : executeInsert o (.article a.number a.title a.content
      (a.chapterTag.bind fun t => chMap.lookup t.1)
      (a.sectionTag.bind fun t => secMap.lookup t.1)) s with
  | error s₁ =>
    simp only [he] at h
    cases h
  | ok pr =>
    obtain ⟨aid, s₁⟩ := pr
    simp only [he] at h
    cases hp : insertParas o a.number aid a.paragraphs s₁ acc.2.1 acc.2.2 with
    | error s₂ =>
      simp only [hp] at h
      cases h
    | ok p₂ =>
      obtain ⟨⟨pm', sm'⟩, s₂⟩ := p₂
      simp only [hp] at h
      have hext2 : Extends s₁ s₂ :=
        (insertParas_extends o a.number aid a.paragraphs s₁ acc.2.1 acc.2.2).2 _ s₂ hp
      cases hr : insertReqs o a.number aid pm' sm' a.requirements s₂ with
      | error s₃ =>
        simp only [hr] at h
        cases h
      | ok p₃ =>
        obtain ⟨u, s₃⟩ := p₃
        simp only [hr] at h
        have hext3 : Extends s₂ s₃ :=
          (insertReqs_extends o a.number aid pm' sm' a.requirements s₂).2 u s₃ hr
        cases hen : insertEntities o aid a.entities s₃ with
        | error s₄ =>
          simp only [hen] at h
          cases h
        | ok p₄ =>
          obtain ⟨u₂, s₄⟩ := p₄
          simp only [hen] at h
          injection h with h'
          injection h' with h1 h2
          subst h2
          have hext4 : Extends s₃ s₄ :=
            (insertEntities_extends o aid a.entities s₃).2 u₂ s₄ hen
          have hext24 : Extends s₂ s₄ := extends_trans hext3 hext4
          refine ⟨?_, ?_, ?_, ?_⟩
          · exact ⟨_, _, rowIn_mono
              (pending_sub_of_extends (extends_trans hext2 hext24))
              ⟨aid, (executeInsert_ok he).2⟩⟩
          · intro p hpmem
            exact paraRowsIn_mono (pending_sub_of_extends hext24)
              (insertParas_mem o a.number aid a.paragraphs s₁ acc.2.1 acc.2.2 _ s₂ hp p hpmem)
          · intro r hrmem
            have hr' := hr
            unfold insertReqs at hr'
            refine ⟨aid, pm'.lookup (a.number, r.paragraph),
              (match r.subparagraph with
                | some letter => sm'.lookup (a.number, r.paragraph, letter)
                | none => none), ?_⟩
            exact rowIn_mono (pending_sub_of_extends hext4)
              (simpleFold_mem o
                (fun r => Row.requirement aid (pm'.lookup (a.number, r.paragraph))
                  (match r.subparagraph with
                    | some letter => sm'.lookup (a.number, r.paragraph, letter)
                    | none => none)
                  r.text r.is_obligation r.is_right r.is_time_requirement)
                (fun _ _ _ => ()) a.requirements s₂ () u s₃ hr' r hrmem)
          · intro e hemem
            have hen' := hen
            unfold insertEntities at hen'
            exact ⟨aid, simpleFold_mem o
              (fun e => Row.entity aid e.text e.label e.startPos e.endPos)
              (fun _ _ _ => ()) a.entities s₃ () u₂ s₄ hen' e hemem⟩

theorem insertArticles_mem (o : Nat → Bool) (chMap secMap : SMap) :
    ∀ (arts : List MArticle) (s : DBState) (acc' : SMap × ParaMap × SubMap)
      (s' : DBState),
      insertArticles o chMap secMap arts s = .ok (acc', s') →
      ∀ a ∈ arts, ArticleRowsIn a s'.pending := by
  intro arts s acc' s' h
  exact foldInserts_mem (articleStep_spec o chMap secMap)
    (fun a s => ArticleRowsIn a s.pending)
    (fun _ _ _ hext hr => articleRowsIn_mono (pending_sub_of_extends hext) hr)
    (fun a s acc acc' s' hstep => articleStep_mem o chMap secMap a s acc acc' s' hstep)
    arts s ([], [], []) acc' s' h

theorem mem_commit_of_pending {s : DBState} {x : Nat × Row} (h : x ∈ s.pending) :
    x ∈ (commitDB s).committed := by
  simp only [commitDB]
  exact List.mem_append.mpr (Or.inr h)

/-- The case analysis of `populate_database`: either some insert raised
and the committed store is exactly as before the call, or the run
committed and the durable store now holds the old content, the previously
pending rows and every row generated from the model. -/
theorem populate_database_cases (o : Nat → Bool) (m : PModel) (s : DBState) :
    (∃ s', populate_database o m s = (s', false) ∧ s'.committed = s.committed) ∨
    (∃ s', populate_database o m s = (s', true) ∧ s'.pending = [] ∧
      (∃ δ, s'.committed = s.committed ++ s.pending ++ δ) ∧
      ModelRowsIn m s'.committed) := by
  cases h1 : insertChapters o m.chapters s with
  | error e1 =>
    left
    exact ⟨e1, by simp only [populate_database, h1],
      ((insertChapters_extends o m.chapters s).1 e1 h1).1⟩
  | ok p1 =>
  obtain ⟨chMap, s1⟩ := p1
  have ext1 : Extends s s1 := (insertChapters_extends o m.chapters s).2 chMap s1 h1
  cases h2 : insertSections o m.articles chMap m.sections s1 with
  | error e2 =>
    left
    exact ⟨e2, by simp only [populate_database, h1, h2],
      (extends_trans ext1
        ((insertSections_extends o m.articles chMap m.sections s1).1 e2 h2)).1⟩
  | ok p2 =>
  obtain ⟨secMap, s2⟩ := p2
  have ext2 : Extends s1 s2 :=
    (insertSections_extends o m.articles chMap m.sections s1).2 secMap s2 h2
  cases h3 : insertRecitals o m.recitals s2 with
  | error e3 =>
    left
    exact ⟨e3, by simp only [populate_database, h1, h2, h3],
      (extends_trans (extends_trans ext1 ext2)
        ((insertRecitals_extends o m.recitals s2).1 e3 h3)).1⟩
  | ok p3 =>
  obtain ⟨u3, s3⟩ := p3
  have ext3 : Extends s2 s3 := (insertRecitals_extends o m.recitals s2).2 u3 s3 h3
  cases h4 : insertArticles o chMap secMap m.articles s3 with
  | error e4 =>
    left
    exact ⟨e4, by simp only [populate_database, h1, h2, h3, h4],
      (extends_trans (extends_trans (extends_trans ext1 ext2) ext3)
        ((insertArticles_extends o chMap secMap m.articles s3).1 e4 h4)).1⟩
  | ok p4 =>
  obtain ⟨⟨am, pm, sm⟩, s4⟩ := p4
  have ext4 : Extends s3 s4 :=
    (insertArticles_extends o chMap secMap m.articles s3).2 _ s4 h4
  cases h5 : insertDefs o am pm sm m.definitions s4 with
  | error e5 =>
    left
    exact ⟨e5, by simp only [populate_database, h1, h2, h3, h4, h5],
      (extends_trans (extends_trans (extends_trans (extends_trans ext1 ext2) ext3) ext4)
        ((insertDefs_extends o am pm sm m.definitions s4).1 e5 h5)).1⟩
  | ok p5 =>
  obtain ⟨u5, s5⟩ := p5
  have ext5 : Extends s4 s5 := (insertDefs_extends o am pm sm m.definitions s4).2 u5 s5 h5
  cases h6 : insertCrossRefs o am m.crossReferences s5 with
  | error e6 =>
    left
    exact ⟨e6, by simp only [populate_database, h1, h2, h3, h4, h5, h6],
      (extends_trans (extends_trans (extends_trans (extends_trans (extends_trans
        ext1 ext2) ext3) ext4) ext5)
        ((insertCrossRefs_extends o am m.crossReferences s5).1 e6 h6)).1⟩
  | ok p6 =>
  obtain ⟨u6, s6⟩ := p6
  have ext6 : Extends s5 s6 :=
    (insertCrossRefs_extends o am m.crossReferences s5).2 u6 s6 h6
  cases h7 : insertTimeReqs o am pm sm m.timeRequirements s6 with
  | error e7 =>
    left
    exact ⟨e7, by simp only [populate_database, h1, h2, h3, h4, h5, h6, h7],
      (extends_trans (extends_trans (extends_trans (extends_trans (extends_trans
        (extends_trans ext1 ext2) ext3) ext4) ext5) ext6)
        ((insertTimeReqs_extends o am pm sm m.timeRequirements s6).1 e7 h7)).1⟩
  | ok p7 =>
  obtain ⟨u7, s7⟩ := p7
  have ext7 : Extends s6 s7 :=
    (insertTimeReqs_extends o am pm sm m.timeRequirements s6).2 u7 s7 h7
  cases h8 : insertActors o am m.actors s7 with
  | error e8 =>
    left
    exact ⟨e8, by simp only [populate_database, h1, h2, h3, h4, h5, h6, h7, h8],
      (extends_trans (extends_trans (extends_trans (extends_trans (extends_trans
        (extends_trans (extends_trans ext1 ext2) ext3) ext4) ext5) ext6) ext7)
        ((insertActors_extends o am m.actors s7).1 e8 h8)).1⟩
  | ok p8 =>
  obtain ⟨u8, s8⟩ := p8
  have ext8 : Extends s7 s8 := (insertActors_extends o am m.actors s7).2 u8 s8 h8
  cases h9 : insertPolicySections o privacy_policy_sections s8 with
  | error e9 =>
    left
    exact ⟨e9, by simp only [populate_database, h1, h2, h3, h4, h5, h6, h7, h8, h9],
      (extends_trans (extends_trans (extends_trans (extends_trans (extends_trans
        (extends_trans (extends_trans (extends_trans ext1 ext2) ext3) ext4) ext5)
        ext6) ext7) ext8)
        ((insertPolicySections_extends o privacy_policy_sections s8).1 e9 h9)).1⟩
  | ok p9 =>
  obtain ⟨u9, s9⟩ := p9
  have ext9 : Extends s8 s9 :=
    (insertPolicySections_extends o privacy_policy_sections s8).2 u9 s9 h9
  right
  have e89 : Extends s8 s9 := ext9
  have e79 : Extends s7 s9 := extends_trans ext8 e89
  have e69 : Extends s6 s9 := extends_trans ext7 e79
  have e59 : Extends s5 s9 := extends_trans ext6 e69
  have e49 : Extends s4 s9 := extends_trans ext5 e59
  have e39 : Extends s3 s9 := extends_trans ext4 e49
  have e29 : Extends s2 s9 := extends_trans ext3 e39
  have e19 : Extends s1 s9 := extends_trans ext2 e29
  have e09 : Extends s s9 := extends_trans ext1 e19
  have hcommit : ∀ x ∈ s9.pending, x ∈ (commitDB s9).committed :=
    fun x hx => mem_commit_of_pending hx
  have sub1 : ∀ x ∈ s1.pending, x ∈ (commitDB s9).committed :=
    fun x hx => hcommit x (mem_pending_of_extends e19 hx)
  have sub2 : ∀ x ∈ s2.pending, x ∈ (commitDB s9).committed :=
    fun x hx => hcommit x (mem_pending_of_extends e29 hx)
  have sub3 : ∀ x ∈ s3.pending, x ∈ (commitDB s9).committed :=
    fun x hx => hcommit x (mem_pending_of_extends e39 hx)
  have sub4 : ∀ x ∈ s4.pending, x ∈ (commitDB s9).committed :=
    fun x hx => hcommit x (mem_pending_of_extends e49 hx)
  have sub5 : ∀ x ∈ s5.pending, x ∈ (commitDB s9).committed :=
    fun x hx => hcommit x (mem_pending_of_extends e59 hx)
  have sub7 : ∀ x ∈ s7.pending, x ∈ (commitDB s9).committed :=
    fun x hx => hcommit x (mem_pending_of_extends e79 hx)
  refine ⟨commitDB s9,
    by simp only [populate_database, h1, h2, h3, h4, h5, h6, h7, h8, h9], rfl, ?_, ?_⟩
  · obtain ⟨hc, δ, hp⟩ := e09
    exact ⟨δ, by simp only [commitDB, hc, hp, List.append_assoc]⟩
  · have h1' := h1
    unfold insertChapters at h1'
    have h2' := h2
    unfold insertSections at h2'
    have h3' := h3
    unfold insertRecitals at h3'
    have h5' := h5
    unfold insertDefs at h5'
    have h7' := h7
    unfold insertTimeReqs at h7'
    refine ⟨?_, ?_, ?_, ?_, ?_, ?_⟩
    · intro c hc
      exact rowIn_mono sub1
        (simpleFold_mem o (fun c => Row.chapter c.1 c.2)
          (fun c cid mp => (c.1, cid) :: mp) m.chapters s [] chMap s1 h1' c hc)
    · intro sec hsec
      exact ⟨sectionChapterId m.articles chMap sec.1, rowIn_mono sub2
        (simpleFold_mem o
          (fun sec => Row.sect (sectionChapterId m.articles chMap sec.1) sec.1 sec.2)
          (fun sec sid mp => (sec.1, sid) :: mp) m.sections s1 [] secMap s2 h2' sec hsec)⟩
    · intro rc hrc
      exact rowIn_mono sub3
        (simpleFold_mem o (fun rc => Row.recital rc.1 rc.2)
          (fun _ _ _ => ()) m.recitals s2 () u3 s3 h3' rc hrc)
    · intro a ha
      exact articleRowsIn_mono sub4
        (insertArticles_mem o chMap secMap m.articles s3 _ s4 h4 a ha)
    · intro td htd
      refine ⟨am.lookup td.2.article, pm.lookup (td.2.article, td.2.paragraph),
        (match td.2.subparagraph with
          | some letter => sm.lookup (td.2.article, td.2.paragraph, letter)
          | none => none), ?_⟩
      exact rowIn_mono sub5
        (simpleFold_mem o
          (fun td => Row.definition td.1 td.2.definition (am.lookup td.2.article)
            (pm.lookup (td.2.article, td.2.paragraph))
            (match td.2.subparagraph with
              | some letter => sm.lookup (td.2.article, td.2.paragraph, letter)
              | none => none))
          (fun _ _ _ => ()) m.definitions s4 () u5 s5 h5' td htd)
    · intro t ht
      refine ⟨am.lookup t.article, pm.lookup (t.article, t.paragraph),
        (match t.subparagraph with
          | some letter => sm.lookup (t.article, t.paragraph, letter)
          | none => none), ?_⟩
      exact rowIn_mono sub7
        (simpleFold_mem o
          (fun t => Row.timeRequirement (am.lookup t.article)
            (pm.lookup (t.article, t.paragraph))
            (match t.subparagraph with
              | some letter => sm.lookup (t.article, t.paragraph, letter)
              | none => none) t.text)
          (fun _ _ _ => ()) m.timeRequirements s6 () u7 s7 h7' t ht)

/-- C3: `populate_database` is atomic.  For every failure oracle, model
and store state, either the run returns success and the durable store
holds its prior content plus every row generated from the model — the
single `conn.commit()` at the end publishes the whole transaction — or
some insert fails, nothing is committed, and the committed store is left
exactly in its state before the call. -/
theorem populate_database_atomic (o : Nat → Bool) (m : PModel) (s : DBState) :
    (∃ s', populate_database o m s = (s', false) ∧ s'.committed = s.committed) ∨
    (∃ s', populate_database o m s = (s', true) ∧ s'.pending = [] ∧
      (∃ δ, s'.committed = s.committed ++ s.pending ++ δ) ∧
      ModelRowsIn m s'.committed) :=
  populate_database_cases o m s

/-- C3 witness: with no failures the run commits (flag `true`); with the
first insert failing nothing at all is committed. -/
theorem populate_database_atomic_witness :
    (populate_database (fun _ => false) pmodel₁ dbS0).2 = true ∧
    (populate_database (fun _ => true) pmodel₁ dbS0).2 = false ∧
    (populate_database (fun _ => true) pmodel₁ dbS0).1.committed = [] ∧
    ((∃ s', populate_database (fun _ => false) pmodel₁ dbS0 = (s', false) ∧
        s'.committed = dbS0.committed) ∨
      (∃ s', populate_database (fun _ => false) pmodel₁ dbS0 = (s', true) ∧
        s'.pending = [] ∧
        (∃ δ, s'.committed = dbS0.committed ++ dbS0.pending ++ δ) ∧
        ModelRowsIn pmodel₁ s'.committed)) :=
  ⟨by decide, by decide, by decide,
   populate_database_atomic (fun _ => false) pmodel₁ dbS0⟩

/-- C9 counterexample: a run whose first insert fails returns normally
with `False` — it commits nothing and raises nothing, the third outcome
the claim rules out. -/
theorem parse_and_load_claim_counterexample :
    (parse_and_load ⟨false, fun _ => true⟩ pmodel₁ dbS0).2 = false ∧
    (parse_and_load ⟨false, fun _ => true⟩ pmodel₁ dbS0).1.committed = [] ∧
    pmodel₁.recitals ≠ [] := by
  refine ⟨by decide, by decide, by decide⟩

/-- C9 (amended): a parse-and-populate run either completes with every
row committed and returns `True`, or catches the failure and returns
`False` with the committed store exactly as before the call; the
exception never propagates to the caller. -/
theorem parse_and_load_no_raise (po : PipeOracle) (m : PModel) (s : DBState) :
    (∃ s', parse_and_load po m s = (s', true) ∧ s'.pending = [] ∧
      (∃ δ, s'.committed = s.committed ++ s.pending ++ δ) ∧
      ModelRowsIn m s'.committed) ∨
    (∃ s', parse_and_load po m s = (s', false) ∧ s'.committed = s.committed) := by
  by_cases hf : po.failBefore = true
  · right
    exact ⟨s, by simp only [parse_and_load, hf, if_true], rfl⟩
  · rcases populate_database_cases po.insertFail m s with ⟨s', hp, hc⟩ | ⟨s', hp, hx⟩
    · right
      refine ⟨s', ?_, hc⟩
      simp only [parse_and_load, hf, if_false, Bool.false_eq_true]
      exact hp
    · left
      refine ⟨s', ?_, hx⟩
      simp only [parse_and_load, hf, if_false, Bool.false_eq_true]
      exact hp

/-- C9 witness (amended): a failure-free run returns `True` with the
commit, through the amended dichotomy at a concrete input. -/
theorem parse_and_load_no_raise_witness :
    (parse_and_load ⟨false, fun _ => false⟩ pmodel₁ dbS0).2 = true ∧
    ((∃ s', parse_and_load ⟨false, fun _ => false⟩ pmodel₁ dbS0 = (s', true) ∧
        s'.pending = [] ∧
        (∃ δ, s'.committed = dbS0.committed ++ dbS0.pending ++ δ) ∧
        ModelRowsIn pmodel₁ s'.committed) ∨
      (∃ s', parse_and_load ⟨false, fun _ => false⟩ pmodel₁ dbS0 = (s', false) ∧
        s'.committed = dbS0.committed)) :=
  ⟨by decide, parse_and_load_no_raise ⟨false, fun _ => false⟩ pmodel₁ dbS0⟩

end GDPR
